import Mathlib

/-!
Verification of the Vault3d wallet-extraction and transfer-clustering core.

This file gives a shallow embedding, in Lean 4, of the parts of the
repository the frozen claims are about:

* `src/src/metamask.ts` — MetaMask vault decryption (`decryptVault`);
* `src/src/phantom.ts` — Phantom vault location (`findVault`), two-stage
  decryption (`decryptVault`) and key extraction (`extractKeypair`);
* `src/server/services/transfer-fetcher.ts` (shipped as
  `src/unnamed/part_003`) — the Alchemy/Helius transfer fetchers and the
  scan orchestration (`fetchAlchemyTransfers`, `scanTransferHistory`,
  `liveScan`);
* `src/server/services/connections.ts` (shipped as `src/unnamed/part_004`)
  — connection detection (`detectConnections`), Union-Find clustering
  (`computeClusters`) and the scan single-flight wrapper
  (`scanAndComputeConnections`);
* `src/server/db.ts` — the insert helpers that the above call
  (`insertConnection`, `insertTransfer`, `upsertScanState`).

Cryptographic primitives (PBKDF2, scrypt, AES-GCM, NaCl secretbox,
base64/UTF-8 codecs) and `JSON.parse` are platform library calls; the
embedding treats them as explicit functional parameters, exactly as the
source treats them as black boxes.  Everything else — control flow,
defaulting, string splitting, deduplication, Union-Find — is translated
directly from the TypeScript.

Numbers: JavaScript numbers are modelled as `Nat` (all values the claims
touch — byte values, block numbers, ids, iteration counts — are
non-negative integers well inside the exact-integer range of an IEEE
double).  Byte buffers are `List Nat` with bytes reduced mod 256 where the
source constructs a `Uint8Array`.
-/

/-- The `Map.get` for a JavaScript `Map` modelled as an association list in
insertion order.  JS `Map.set` overwrites, so the stored value for a key is
the last one; `lookupLast` returns it. -/
def lookupLast (l : List (String × String)) (k : String) : Option String :=
  (l.filter (fun p => p.1 = k)).getLast?.map (·.2)

/-- JS `String.prototype.startsWith`, written over character lists so
that it evaluates by kernel reduction (`String.startsWith` itself is
defined by well-founded recursion and does not). -/
def jsStartsWith (s p : String) : Bool := p.toList.isPrefixOf s.toList

/-- JS `String.prototype.toLowerCase` over character lists, for the same
reason. -/
def jsToLower (s : String) : String := String.mk (s.toList.map Char.toLower)

namespace MetaMask

/-- The `keyMetadata.params` of a MetaMask vault (src/src/metamask.ts:11-16). -/
structure KeyMetadataParams where
  iterations : Nat
deriving DecidableEq

/-- The `keyMetadata` of a MetaMask vault. -/
structure KeyMetadata where
  algorithm : String
  params : KeyMetadataParams
deriving DecidableEq

/-- The `MetaMaskVault` interface (src/src/metamask.ts:7-17): base64
`data`/`iv`/`salt` plus optional KDF metadata. -/
structure MetaMaskVault where
  data : String
  iv : String
  salt : String
  keyMetadata : Option KeyMetadata
deriving DecidableEq

/-- The platform crypto primitives `decryptVault` calls, as black boxes:
`Buffer.from(·, "base64")`, `crypto.pbkdf2Sync`, and AES-256-GCM
decryption (`createDecipheriv` + `setAuthTag` + `update`/`final`, which
yields the plaintext or throws on authentication failure — modelled as
`Option`). -/
structure CryptoPrims where
  b64 : String → List Nat
  pbkdf2 : String → List Nat → Nat → Nat → String → List Nat
  aesGcmDecrypt : List Nat → List Nat → List Nat → List Nat → Option (List Nat)

/-- Clamp a JavaScript `TypedArray.subarray` index: negative indices count
from the end, and everything is clamped to `[0, len]`. -/
def jsIdx (len : Nat) (i : Int) : Nat :=
  if i < 0 then ((len : Int) + i).toNat else min i.toNat len

/-- The `buf.subarray(b, e)` on a byte buffer, with JS index semantics. -/
def jsSubarray (l : List Nat) (b e : Int) : List Nat :=
  (l.take (jsIdx l.length e)).drop (jsIdx l.length b)

/-- The `decryptVault` (src/src/metamask.ts:76-102), up to the decrypted byte
buffer (the final `JSON.parse` is outside this embedding): PBKDF2-SHA256
key derivation over the password and base64-decoded salt with the
metadata iteration count (default 10000), then AES-256-GCM with the last
16 bytes of the base64-decoded data as auth tag. -/
def decryptVault (P : CryptoPrims) (vault : MetaMaskVault) (password : String) :
    Option (List Nat) :=
  let salt := P.b64 vault.salt
  let iv := P.b64 vault.iv
  let encryptedData := P.b64 vault.data
  let iterations := match vault.keyMetadata with
    | some m => m.params.iterations
    | none => 10000
  let key := P.pbkdf2 password salt iterations 32 "sha256"
  let ciphertext := jsSubarray encryptedData 0 ((encryptedData.length : Int) - 16)
  let authTag := jsSubarray encryptedData ((encryptedData.length : Int) - 16)
    (encryptedData.length : Int)
  P.aesGcmDecrypt key iv ciphertext authTag

/-- The MetaMask decryption procedure as the specification words it:
32-byte PBKDF2-HMAC-SHA256 key (iterations from the embedded KDF metadata,
10000 when absent), the final 16 bytes of the decoded ciphertext as the
AEAD tag, the remainder as actual ciphertext, AES-256-GCM under the
vault's IV. -/
def decryptVaultSpec (P : CryptoPrims) (vault : MetaMaskVault) (password : String) :
    Option (List Nat) :=
  let salt := P.b64 vault.salt
  let iv := P.b64 vault.iv
  let encryptedData := P.b64 vault.data
  let iterations := match vault.keyMetadata with
    | some m => m.params.iterations
    | none => 10000
  let key := P.pbkdf2 password salt iterations 32 "sha256"
  let ciphertext := encryptedData.take (encryptedData.length - 16)
  let authTag := encryptedData.drop (encryptedData.length - 16)
  P.aesGcmDecrypt key iv ciphertext authTag

end MetaMask

namespace Phantom

/-- A parsed JSON value, as produced by the platform `JSON.parse`.
Duplicate keys cannot survive `JSON.parse` (last wins), so object field
lists are taken key-unique and field access is plain lookup. -/
inductive Json where
  | null : Json
  | bool (b : Bool) : Json
  | num (n : Int) : Json
  | str (s : String) : Json
  | arr (xs : List Json) : Json
  | obj (fields : List (String × Json)) : Json

/-- JS property access `v.f`: a field of an object, `undefined` (`none`)
otherwise. -/
def Json.getField : Json → String → Option Json
  | .obj fields, k => fields.lookup k
  | _, _ => none

/-- JS truthiness of a JSON value. -/
def Json.truthy : Json → Bool
  | .null => false
  | .bool b => b
  | .num n => n != 0
  | .str s => s != ""
  | .arr _ => true
  | .obj _ => true

/-- Truthiness of the result of an optional chain (`undefined` is falsy). -/
def optTruthy : Option Json → Bool
  | some j => j.truthy
  | none => false

/-- LevelDB key of the Phantom encryption-key entry
(src/src/phantom.ts:48). -/
def KEY_ENCRYPTION : String := ".phantom-labs.encryption.encryptionKey"

/-- LevelDB key prefixes of seed and private-key entries
(src/src/phantom.ts:49-50). -/
def PREFIX_SEED : String := ".phantom-labs.vault.seed."

def PREFIX_PRIVATE_KEY : String := ".phantom-labs.vault.privateKey."

/-- The `parseEntry` (src/src/phantom.ts:56-73): parse a LevelDB value as
JSON, unwrapping the version-0 envelope whose `value` field is itself a
JSON string (falling back to the raw string when the inner parse fails).
`jp` is the platform `JSON.parse`, returning `none` where it would
throw. -/
def parseEntry (jp : String → Option Json) (raw : String) : Option Json :=
  match jp raw with
  | none => none
  | some outer =>
    match outer.getField "value" with
    | some (.str s) =>
      match jp s with
      | some v => some v
      | none => some (.str s)
    | _ => some outer

/-- The located vault components: the parsed encryption-key entry plus all
parsed seed / private-key entries (the `PhantomVaultData` shape of
src/src/phantom.ts:36-40, with parsed JSON in place of the TS casts). -/
structure PhantomVaultFound where
  encryptionKey : Json
  seeds : List Json
  privateKeys : List Json

/-- One step of the seed / private-key collection loop of `findVault`
(src/src/phantom.ts:94-102): prefix-match the key, parse the value and
keep entries whose `content.encrypted` is truthy. -/
def collectStep (jp : String → Option Json) (acc : List Json × List Json)
    (kv : String × String) : List Json × List Json :=
  if jsStartsWith kv.1 PREFIX_SEED then
    match parseEntry jp kv.2 with
    | some entry =>
      if optTruthy ((entry.getField "content").bind (·.getField "encrypted")) then
        (acc.1 ++ [entry], acc.2)
      else acc
    | none => acc
  else if jsStartsWith kv.1 PREFIX_PRIVATE_KEY then
    match parseEntry jp kv.2 with
    | some entry =>
      if optTruthy ((entry.getField "content").bind (·.getField "encrypted")) then
        (acc.1, acc.2 ++ [entry])
      else acc
    | none => acc
  else acc

/-- The `findVault` (src/src/phantom.ts:80-109): exact lookup of the
encryption-key entry (required, with a valid `encryptedKey.encrypted`),
prefix scan for seed / private-key entries, and `null` when no usable
seed or private-key entry exists. -/
def findVault (jp : String → Option Json) (entries : List (String × String)) :
    Option PhantomVaultFound :=
  match lookupLast entries KEY_ENCRYPTION with
  | none => none
  | some encKeyRaw =>
    match parseEntry jp encKeyRaw with
    | none => none
    | some encryptionKey =>
      if optTruthy ((encryptionKey.getField "encryptedKey").bind
          (·.getField "encrypted")) then
        let collected := entries.foldl (collectStep jp) ([], [])
        if collected.1.length = 0 ∧ collected.2.length = 0 then none
        else some ⟨encryptionKey, collected.1, collected.2⟩
      else none

/-- The `EncryptedContent` interface (src/src/phantom.ts:17-24): base58
ciphertext, nonce and salt plus KDF parameters. -/
structure EncryptedContent where
  encrypted : String
  nonce : String
  salt : String
  kdf : String
  iterations : Option Nat
  digest : Option String
deriving DecidableEq

/-- The `PhantomEncryptionKey` (src/src/phantom.ts:26-29). -/
structure PhantomEncryptionKey where
  encryptedKey : EncryptedContent
deriving DecidableEq

/-- The `PhantomVaultEntry` (src/src/phantom.ts:31-34). -/
structure PhantomVaultEntry where
  content : EncryptedContent
deriving DecidableEq

/-- The `PhantomVaultData` (src/src/phantom.ts:36-40) as consumed by
`decryptVault`. -/
structure PhantomVaultData where
  encryptionKey : PhantomEncryptionKey
  seeds : List PhantomVaultEntry
  privateKeys : List PhantomVaultEntry
deriving DecidableEq

/-- Password argument of `deriveKey`: a UTF-8 string at stage 1, raw bytes
(the master key) at stage 2 (src/src/phantom.ts:117-123). -/
inductive PasswordInput where
  | str (s : String) : PasswordInput
  | bytes (b : List Nat) : PasswordInput
deriving DecidableEq

/-- Platform primitives of the Phantom pipeline, as black boxes:
`bs58.decode`, `Buffer.from(·, "utf8")`, `crypto.scryptSync`,
`crypto.pbkdf2Sync`, `nacl.secretbox.open` (ciphertext, nonce, key, with
`none` for the `null` of a failed open), `Buffer.toString("utf8")` and
`JSON.parse`. -/
structure PhantomPrims where
  bs58decode : String → List Nat
  utf8Encode : String → List Nat
  scrypt : List Nat → List Nat → Nat → Nat → Nat → Nat → List Nat
  pbkdf2 : List Nat → List Nat → Nat → Nat → String → List Nat
  secretboxOpen : List Nat → List Nat → List Nat → Option (List Nat)
  utf8Decode : List Nat → String
  jsonParse : String → Option Json

/-- The `deriveKey` (src/src/phantom.ts:117-141): scrypt (N=4096, r=8, p=1)
when the entry's `kdf` says so, otherwise PBKDF2 with the entry's
iteration count (default 10000) and digest (default sha256); the salt is
base58-decoded. -/
def deriveKey (P : PhantomPrims) (password : PasswordInput)
    (enc : EncryptedContent) : List Nat :=
  let saltBuf := P.bs58decode enc.salt
  let passwordInput := match password with
    | .str s => P.utf8Encode s
    | .bytes b => b
  if enc.kdf = "scrypt" then
    P.scrypt passwordInput saltBuf 32 4096 8 1
  else
    P.pbkdf2 passwordInput saltBuf (enc.iterations.getD 10000) 32
      (enc.digest.getD "sha256")

/-- The `decryptBox` (src/src/phantom.ts:147-154): NaCl secretbox open over
the base58-decoded ciphertext and nonce. -/
def decryptBox (P : PhantomPrims) (enc : EncryptedContent) (key : List Nat) :
    Option (List Nat) :=
  P.secretboxOpen (P.bs58decode enc.encrypted) (P.bs58decode enc.nonce) key

/-- The `JSON.parse(text)` with the `catch` fallback to the raw string
(src/src/phantom.ts:196-200). -/
def parseOrString (P : PhantomPrims) (text : String) : Json :=
  (P.jsonParse text).getD (.str text)

/-- The `DecryptedVault` result (src/src/phantom.ts:158-161). -/
structure DecryptedVault where
  seeds : List Json
  privateKeys : List Json

/-- Stage-1 error message (src/src/phantom.ts:178-180). -/
def stage1Msg : String :=
  "Decryption failed — wrong password or unsupported vault format (stage 1: master key)"

/-- Stage-2 seed error message (src/src/phantom.ts:192). -/
def stage2SeedMsg : String := "Decryption failed — stage 2 seed decryption failed"

/-- Stage-2 private-key error message (src/src/phantom.ts:210-211). -/
def stage2PkMsg : String := "Decryption failed — stage 2 privateKey decryption failed"

/-- The stage-2 loop over one kind of vault entry
(src/src/phantom.ts:186-221): derive a fresh key from the master-key
bytes against the entry's own parameters, secretbox-open it, and `throw`
(propagate `failMsg`) on the first failure. -/
def decryptEntries (P : PhantomPrims) (master : List Nat)
    (failMsg : String) : List PhantomVaultEntry → Except String (List Json)
  | [] => .ok []
  | e :: rest =>
    match decryptBox P e.content (deriveKey P (.bytes master) e.content) with
    | none => .error failMsg
    | some bytes =>
      match decryptEntries P master failMsg rest with
      | .error msg => .error msg
      | .ok tail => .ok (parseOrString P (P.utf8Decode bytes) :: tail)

/-- The `decryptVault` (src/src/phantom.ts:168-224): stage 1 decrypts the
master key from the password; stage 2 decrypts every seed entry, then
every private-key entry, with the master-key bytes, throwing on the first
failure. -/
def decryptVault (P : PhantomPrims) (vaultData : PhantomVaultData)
    (password : String) : Except String DecryptedVault :=
  match decryptBox P vaultData.encryptionKey.encryptedKey
      (deriveKey P (.str password) vaultData.encryptionKey.encryptedKey) with
  | none => .error stage1Msg
  | some masterKeyBytes =>
    match decryptEntries P masterKeyBytes stage2SeedMsg vaultData.seeds with
    | .error msg => .error msg
    | .ok seeds =>
      match decryptEntries P masterKeyBytes stage2PkMsg vaultData.privateKeys with
      | .error msg => .error msg
      | .ok privateKeys => .ok ⟨seeds, privateKeys⟩

/-- The Bitcoin base58 alphabet used by `bs58`. -/
def b58Alphabet : List Char :=
  "123456789ABCDEFGHJKLMNPQRSTUVWXYZabcdefghijkmnopqrstuvwxyz".toList

/-- Big-endian base-58 digits of `n` (empty for 0); `fuel`-structured so
that it evaluates by kernel reduction, with `fuel = n` always enough. -/
def b58digitsAux : Nat → Nat → List Nat
  | 0, _ => []
  | fuel + 1, n =>
    if n = 0 then [] else b58digitsAux fuel (n / 58) ++ [n % 58]

def b58digits (n : Nat) : List Nat := b58digitsAux n n

/-- A byte list as a big-endian natural number. -/
def bytesToNat (bs : List Nat) : Nat :=
  bs.foldl (fun acc b => acc * 256 + b % 256) 0

/-- The `bs58.encode`: the base-x algorithm over the Bitcoin alphabet — each
leading zero byte becomes `'1'`, the rest is the big-endian base-58
rendering of the buffer read as a big-endian number. -/
def bs58encode (bs : List Nat) : String :=
  let leadingZeros := (bs.takeWhile (fun b => b % 256 = 0)).length
  let digits := b58digits (bytesToNat bs)
  String.mk (List.replicate leadingZeros '1' ++
    digits.map (fun d => b58Alphabet.getD d '1'))

/-- The `{ privateKey: { data: [...] } }` shape consumed by
`extractKeypair`: `privateKey` is `none` when the field is absent or not
an object, `data` is `none` when absent or not an array.  JS numbers fed
to `new Uint8Array` are reduced mod 256. -/
structure PrivateKeyField where
  data : Option (List Nat)
deriving DecidableEq

structure PkObj where
  privateKey : Option PrivateKeyField
deriving DecidableEq

/-- A result keypair (src/src/phantom.ts:10-13). -/
structure KeypairOut where
  publicKey : String
  secretKey : String
deriving DecidableEq

/-- The `extractKeypair` (src/src/phantom.ts:246-268): a 64-byte buffer is an
Ed25519 keypair — `publicKey` is the base58 of the last 32 bytes and
`secretKey` the base58 of the whole buffer; any other length yields
`"(unknown)"` plus the base58 of the whole buffer. -/
def extractKeypair (pkObj : PkObj) : Option KeypairOut :=
  match pkObj.privateKey with
  | some inner =>
    match inner.data with
    | some arr =>
      let keyBytes := arr.map (fun b => b % 256)
      if keyBytes.length = 64 then
        some ⟨bs58encode (keyBytes.drop 32), bs58encode keyBytes⟩
      else
        some ⟨"(unknown)", bs58encode keyBytes⟩
    | none => none
  | none => none

end Phantom

/-- The `normalizeAddress` (defined identically in
src/unnamed/part_003:362-365 and src/unnamed/part_004:101-104): 0x-hex
addresses are lower-cased, anything else passes through. -/
def normalizeAddress (addr : String) : String :=
  if jsStartsWith addr "0x" then jsToLower addr else addr

namespace Fetcher

/-- An `AlchemyTransfer` (src/unnamed/part_003:293-302).  `value` is a
JSON number the claims never inspect, modelled as `Nat`; the original
`from`/`to` fields are spelled `fromAddress`/`toAddress` (`from` is a
Lean keyword). -/
structure ATransfer where
  fromAddress : String
  toAddress : String
  asset : Option String
  category : String
  hash : String
  blockNum : String
  value : Option Nat
deriving DecidableEq

/-- The response the network hands one `fetch` of the Alchemy loop:
HTTP 429, a throw (network failure, non-ok status, or a JSON-RPC `error`
member — all of which land in the same `catch`), or a page of
transfers with an optional continuation key. -/
inductive AlchemyResp where
  | rateLimited : AlchemyResp
  | failure (msg : String) : AlchemyResp
  | page (transfers : List ATransfer) (pageKey : Option String) : AlchemyResp
deriving DecidableEq

/-- What `fetchAlchemyTransfers` produces: the accumulated transfers, the
running maximum block, and — for stating the backoff behaviour — the list
of `sleep` durations (ms) the loop performed, in order. -/
structure FetchOut where
  transfers : List ATransfer
  maxBlock : Nat
  sleeps : List Nat
deriving DecidableEq

/-- One hexadecimal digit, as `parseInt(·, 16)` reads it. -/
def hexDigit? (c : Char) : Option Nat :=
  if '0' ≤ c ∧ c ≤ '9' then some (c.toNat - '0'.toNat)
  else if 'a' ≤ c ∧ c ≤ 'f' then some (c.toNat - 'a'.toNat + 10)
  else if 'A' ≤ c ∧ c ≤ 'F' then some (c.toNat - 'A'.toNat + 10)
  else none

/-- Maximal hex-digit run of `parseInt(s, 16)`. -/
def parseHexRun : List Char → Option Nat → Option Nat
  | [], acc => acc
  | c :: rest, acc =>
    match hexDigit? c with
    | some d => parseHexRun rest (some (acc.getD 0 * 16 + d))
    | none => acc

/-- The `parseInt(s, 16)`: optional `0x`/`0X` prefix, then the maximal run of
hex digits; `none` stands for `NaN` (no digits at all). -/
def parseIntHex (s : String) : Option Nat :=
  let cs := s.toList
  let cs := if cs.take 2 = ['0', 'x'] ∨ cs.take 2 = ['0', 'X'] then cs.drop 2 else cs
  parseHexRun cs none

/-- The per-transfer maximum-block update of the Alchemy page loop
(src/unnamed/part_003:448-451); a `NaN` block number compares false and
never updates. -/
def updMax (m : Nat) (t : ATransfer) : Nat :=
  match parseIntHex t.blockNum with
  | some b => if b > m then b else m
  | none => m

/-- The paginated `do … while (pageKey)` loop of `fetchAlchemyTransfers`
(src/unnamed/part_003:394-461), driven by a script of network responses
(one per request issued).  Key control-flow facts carried over exactly:
`continue` in a JS `do…while` jumps to the `while (pageKey)` test, so a
retry only re-iterates when a continuation key is pending; exceeding the
retry bound on a 429 is a `break` (normal return of what was gathered),
while exceeding it in the `catch` rethrows.  An exhausted script (the
loop still wants a response) is a modelling artifact reported as an
error so it can never fake a successful run. -/
def fetchAlchemyGo : List AlchemyResp → Option String → Nat → List ATransfer →
    Nat → List Nat → Except String FetchOut
  | [], _, _, _, _, _ => .error "unscripted request"
  | resp :: rest, pageKey, retries, acc, maxB, sleeps =>
    match resp with
    | .rateLimited =>
      let r := retries + 1
      if r > 3 then .ok ⟨acc, maxB, sleeps⟩
      else
        let sleeps' := sleeps ++ [1000 * 2 ^ r]
        match pageKey with
        | some _ => fetchAlchemyGo rest pageKey r acc maxB sleeps'
        | none => .ok ⟨acc, maxB, sleeps'⟩
    | .failure msg =>
      let r := retries + 1
      if r > 3 then .error msg
      else
        let sleeps' := sleeps ++ [1000 * 2 ^ r]
        match pageKey with
        | some _ => fetchAlchemyGo rest pageKey r acc maxB sleeps'
        | none => .ok ⟨acc, maxB, sleeps'⟩
    | .page ts pk =>
      let acc' := acc ++ ts
      let maxB' := ts.foldl updMax maxB
      let sleeps' := sleeps ++ [150]
      match pk with
      | some _ => fetchAlchemyGo rest pk 0 acc' maxB' sleeps'
      | none => .ok ⟨acc', maxB', sleeps'⟩

/-- The `fetchAlchemyTransfers` (src/unnamed/part_003:383-464).  `address`,
`direction` and `fromBlock` shape the request parameters; the responses
are supplied by `script`. -/
def fetchAlchemyTransfers (script : List AlchemyResp) (address : String)
    (direction : String) (fromBlock : Nat) : Except String FetchOut :=
  fetchAlchemyGo script none 0 [] fromBlock []

/-- A Helius native transfer (src/unnamed/part_003:314-318). -/
structure HNativeTransfer where
  fromUserAccount : String
  toUserAccount : String
  amount : Nat
deriving DecidableEq

/-- A Helius token transfer (src/unnamed/part_003:320-325). -/
structure HTokenTransfer where
  fromUserAccount : String
  toUserAccount : String
  tokenAmount : Nat
  mint : String
deriving DecidableEq

/-- A Helius enhanced transaction (src/unnamed/part_003:312-326). -/
structure HeliusTx where
  signature : String
  timestamp : Nat
  nativeTransfers : List HNativeTransfer
  tokenTransfers : List HTokenTransfer
deriving DecidableEq

/-- One scripted response to a Helius page request. -/
inductive HeliusResp where
  | rateLimited : HeliusResp
  | failure (msg : String) : HeliusResp
  | page (txs : List HeliusTx) : HeliusResp
deriving DecidableEq

/-- The `do … while (true)` loop of `fetchHeliusTransactions`
(src/unnamed/part_003:476-509): here the loop condition is `true`, so
retries always re-iterate; the loop ends on an empty page, a 429 beyond
the bound (`break`), or a rethrow beyond the bound. -/
def fetchHeliusGo : List HeliusResp → Nat → List HeliusTx →
    Except String (List HeliusTx)
  | [], _, _ => .error "unscripted request"
  | resp :: rest, retries, acc =>
    match resp with
    | .rateLimited =>
      let r := retries + 1
      if r > 3 then .ok acc else fetchHeliusGo rest r acc
    | .failure msg =>
      let r := retries + 1
      if r > 3 then .error msg else fetchHeliusGo rest r acc
    | .page txs =>
      if txs.length = 0 then .ok acc
      else fetchHeliusGo rest 0 (acc ++ txs)

/-- The `fetchHeliusTransactions` (src/unnamed/part_003:468-512). -/
def fetchHeliusTransactions (script : List HeliusResp) : Except String (List HeliusTx) :=
  fetchHeliusGo script 0 []

/-- A row of the `transfers` table (src/server/db.ts:90-102). -/
structure TransferRow where
  from_address : String
  to_address : String
  chain : String
  token : String
  amount : String
  tx_hash : String
  block_number : Option Nat
  timestamp : Option String
deriving DecidableEq

/-- The `insertTransfer` (src/server/db.ts:259-284): `INSERT OR IGNORE`
against `UNIQUE(tx_hash, from_address, to_address, token)`. -/
def insertTransfer (table : List TransferRow) (r : TransferRow) : List TransferRow :=
  if table.any (fun q => q.tx_hash = r.tx_hash ∧ q.from_address = r.from_address ∧
      q.to_address = r.to_address ∧ q.token = r.token)
  then table else table ++ [r]

/-- The `scan_state` table (src/server/db.ts:116-123): one `last_block`
per `(address_id, chain)`. -/
abbrev CursorTable := List ((Nat × String) × Nat)

/-- The `getScanState` (src/server/db.ts:335-345), reduced to the
`last_block` column the scanner reads. -/
def getScanState (t : CursorTable) (addrId : Nat) (chain : String) : Option Nat :=
  (t.find? (fun e => e.1.1 = addrId ∧ e.1.2 = chain)).map (·.2)

/-- The `upsertScanState` (src/server/db.ts:316-333): insert or overwrite the
row for `(address_id, chain)`. -/
def upsertScanState : CursorTable → Nat → String → Nat → CursorTable
  | [], addrId, chain, lastBlock => [((addrId, chain), lastBlock)]
  | e :: rest, addrId, chain, lastBlock =>
    if e.1.1 = addrId ∧ e.1.2 = chain then ((addrId, chain), lastBlock) :: rest
    else e :: upsertScanState rest addrId chain lastBlock

/-- The mutable state `scanTransferHistory` threads: the two DB tables it
writes plus the `ScanProgress` fields the claims mention
(src/unnamed/part_003:328-335; the transient `currentAddress` /
`currentChain` display fields and the constant `addressesTotal` are
omitted). -/
structure ScanSt where
  transfers : List TransferRow
  cursors : CursorTable
  errors : List String
  addressesScanned : Nat
  transfersFound : Nat
deriving DecidableEq

/-- The `String(t.value ?? 0)` and `t.asset ?? (…)` of the EVM insert loop
(src/unnamed/part_003:571). -/
def tokenOf (t : ATransfer) : String :=
  match t.asset with
  | some a => a
  | none => if t.category = "external" then "ETH" else "UNKNOWN"

/-- The per-transfer body of the EVM insert loop
(src/unnamed/part_003:568-582): skip records with a falsy endpoint or
hash, normalize endpoints, resolve the token label, insert
(idempotently) and count. -/
def insertAlchemyTransfer (chain : String) (st : ScanSt) (t : ATransfer) : ScanSt :=
  if t.fromAddress = "" ∨ t.toAddress = "" ∨ t.hash = "" then st
  else
    { st with
      transfers := insertTransfer st.transfers
        { from_address := normalizeAddress t.fromAddress
          to_address := normalizeAddress t.toAddress
          chain := chain
          token := tokenOf t
          amount := toString (t.value.getD 0)
          tx_hash := t.hash
          block_number := parseIntHex t.blockNum
          timestamp := none }
      transfersFound := st.transfersFound + 1 }

/-- The EVM insert loop over one fetched page set
(src/unnamed/part_003:568-582). -/
def insertAlchemyPage (chain : String) (st : ScanSt) (ts : List ATransfer) : ScanSt :=
  ts.foldl (insertAlchemyTransfer chain) st

/-- One (address, chain) unit of EVM scanning: the address row plus the
scripted responses for the `from` and `to` direction requests. -/
structure EvmUnit where
  addrId : Nat
  address : String
  scriptFrom : List AlchemyResp
  scriptTo : List AlchemyResp
deriving DecidableEq

/-- The `EVM ${chain} ${addr.slice(0,8)}...: ${msg}`
(src/unnamed/part_003:590). -/
def evmErrMsg (chain address msg : String) : String :=
  "EVM " ++ chain ++ " " ++ String.mk (address.toList.take 8) ++ "...: " ++ msg

/-- The `Solana ${addr.slice(0,8)}...: ${msg}` (src/unnamed/part_003:641). -/
def solErrMsg (address msg : String) : String :=
  "Solana " ++ String.mk (address.toList.take 8) ++ "...: " ++ msg

/-- The body of the per-address EVM loop of `scanTransferHistory`
(src/unnamed/part_003:550-594): read the cursor (default 0), fetch both
directions from that block, insert every page, advance the running
maximum, and on success write the cursor; any throw is caught, recorded
as a per-unit error, and the loop moves on. -/
def scanEvmUnit (chain : String) (st : ScanSt) (u : EvmUnit) : ScanSt :=
  let fromBlock := (getScanState st.cursors u.addrId chain).getD 0
  match fetchAlchemyTransfers u.scriptFrom u.address "from" fromBlock with
  | .error e =>
    { st with errors := st.errors ++ [evmErrMsg chain u.address e]
              addressesScanned := st.addressesScanned + 1 }
  | .ok r1 =>
    let st1 := insertAlchemyPage chain st r1.transfers
    let maxB1 := if r1.maxBlock > fromBlock then r1.maxBlock else fromBlock
    match fetchAlchemyTransfers u.scriptTo u.address "to" fromBlock with
    | .error e =>
      { st1 with errors := st1.errors ++ [evmErrMsg chain u.address e]
                 addressesScanned := st1.addressesScanned + 1 }
    | .ok r2 =>
      let st2 := insertAlchemyPage chain st1 r2.transfers
      let maxB2 := if r2.maxBlock > maxB1 then r2.maxBlock else maxB1
      { st2 with cursors := upsertScanState st2.cursors u.addrId chain maxB2
                 addressesScanned := st2.addressesScanned + 1 }

/-- Black-box JavaScript numeric / date rendering used only to fill
string columns the claims never read: `String(amount / 1e9)`,
`String(tokenAmount)` and `new Date(ts * 1000).toISOString()`. -/
structure JsFmt where
  lamports : Nat → String
  tokenAmt : Nat → String
  isoDate : Nat → String

/-- The USDC mint constant (src/unnamed/part_003:624). -/
def USDC_MINT_STR : String := "EPjFWdd5AufqSSqeM2qN1xzybapC8G4wEGGkZwyTDt1v"

/-- One (address, solana) unit of Helius scanning. -/
structure SolUnit where
  addrId : Nat
  address : String
  script : List HeliusResp

/-- One native transfer of the Solana insert loop
(src/unnamed/part_003:608-620). -/
def insertHeliusNative (fmt : JsFmt) (sig : String) (ts : Nat) (st : ScanSt)
    (nt : HNativeTransfer) : ScanSt :=
  if nt.fromUserAccount = "" ∨ nt.toUserAccount = "" then st
  else
    { st with
      transfers := insertTransfer st.transfers
        { from_address := nt.fromUserAccount
          to_address := nt.toUserAccount
          chain := "solana"
          token := "SOL"
          amount := fmt.lamports nt.amount
          tx_hash := sig
          block_number := none
          timestamp := some (fmt.isoDate (ts * 1000)) }
      transfersFound := st.transfersFound + 1 }

/-- One token transfer of the Solana insert loop
(src/unnamed/part_003:622-635). -/
def insertHeliusToken (fmt : JsFmt) (sig : String) (ts : Nat) (st : ScanSt)
    (tt : HTokenTransfer) : ScanSt :=
  if tt.fromUserAccount = "" ∨ tt.toUserAccount = "" then st
  else
    { st with
      transfers := insertTransfer st.transfers
        { from_address := tt.fromUserAccount
          to_address := tt.toUserAccount
          chain := "solana"
          token := if tt.mint = USDC_MINT_STR then "USDC" else tt.mint
          amount := fmt.tokenAmt tt.tokenAmount
          tx_hash := sig
          block_number := none
          timestamp := some (fmt.isoDate (ts * 1000)) }
      transfersFound := st.transfersFound + 1 }

/-- One Helius transaction of the Solana insert loop
(src/unnamed/part_003:607-636): all its native transfers, then all its
token transfers. -/
def insertHeliusTx (fmt : JsFmt) (st : ScanSt) (tx : HeliusTx) : ScanSt :=
  tx.tokenTransfers.foldl (insertHeliusToken fmt tx.signature tx.timestamp)
    (tx.nativeTransfers.foldl (insertHeliusNative fmt tx.signature tx.timestamp) st)

/-- The body of the per-address Solana loop of `scanTransferHistory`
(src/unnamed/part_003:600-645): fetch all transactions, insert their
native and token transfers, and on success write the cursor row with
`last_block: 0` — the Solana path never reads the stored cursor and
always writes 0. -/
def scanSolanaUnit (fmt : JsFmt) (st : ScanSt) (u : SolUnit) : ScanSt :=
  match fetchHeliusTransactions u.script with
  | .error e =>
    { st with errors := st.errors ++ [solErrMsg u.address e]
              addressesScanned := st.addressesScanned + 1 }
  | .ok txs =>
    let st1 := txs.foldl (insertHeliusTx fmt) st
    { st1 with cursors := upsertScanState st1.cursors u.addrId "solana" 0
               addressesScanned := st1.addressesScanned + 1 }

/-- The `scanTransferHistory` (src/unnamed/part_003:516-651): chains (outer)
× EVM addresses (inner), then the Solana addresses, starting from fresh
progress over the existing DB tables.  `work` pairs each EVM chain with
its units (each unit carrying the scripted responses for its two
requests). -/
def scanTransferHistory (fmt : JsFmt) (work : List (String × List EvmUnit))
    (solWork : List SolUnit) (transfers0 : List TransferRow)
    (cursors0 : CursorTable) : ScanSt :=
  let st0 : ScanSt := ⟨transfers0, cursors0, [], 0, 0⟩
  let st1 := work.foldl (fun st cu => cu.2.foldl (scanEvmUnit cu.1) st) st0
  solWork.foldl (scanSolanaUnit fmt) st1

end Fetcher

namespace Orchestrator

/-- The `ScanResult` (src/unnamed/part_004:36-41). -/
structure ScanResult where
  transfersFound : Nat
  connectionsFound : Nat
  clustersFound : Nat
  errors : List String
deriving DecidableEq

/-- The `LiveScanState` (src/unnamed/part_003:339-354): the process-wide
single-flight flag, the live progress record and the last result. -/
structure LiveScanState where
  scanning : Bool
  progress : Option Fetcher.ScanSt
  result : Option ScanResult
deriving DecidableEq

/-- The `try` block of `scanAndComputeConnections`
(src/unnamed/part_004:310-328), with the outcome of each of its three
steps supplied as a value: `scanTransferHistory` (which publishes the
progress record on success), `detectConnections`, `computeClusters`, and
on full success the published result summary.  A thrown step propagates
to the wrapper. -/
def scanBody (scanStep : Except String Fetcher.ScanSt)
    (detectStep : Except String Nat) (clusterStep : Except String Nat)
    (st : LiveScanState) : LiveScanState × Except String ScanResult :=
  match scanStep with
  | .error e => (st, .error e)
  | .ok p =>
    let st1 := { st with progress := some p }
    match detectStep with
    | .error e => (st1, .error e)
    | .ok connectionsFound =>
      match clusterStep with
      | .error e => (st1, .error e)
      | .ok clustersFound =>
        let result : ScanResult := ⟨p.transfersFound, connectionsFound,
          clustersFound, p.errors⟩
        ({ st1 with result := some result }, .ok result)

/-- The `scanAndComputeConnections` (src/unnamed/part_004:302-333): reject
while `liveScan.scanning` is set (the throw happens before any state
change); otherwise set the flag, clear the stale result, run the body,
and — in `finally`, on success and on throw alike — clear the flag and
the progress record.  The body is any state transformer, so the
guarantees hold however the three steps behave. -/
def scanAndComputeConnections
    (body : LiveScanState → LiveScanState × Except String ScanResult)
    (st : LiveScanState) : LiveScanState × Except String ScanResult :=
  if st.scanning then (st, .error "Scan already in progress")
  else
    let st1 := { st with scanning := true, result := none }
    let bodyOut := body st1
    ({ bodyOut.1 with scanning := false, progress := none }, bodyOut.2)

end Orchestrator

namespace Connections

/-- An `addresses` row as read by `detectConnections`
(src/unnamed/part_004:110-112). -/
structure AddressRow where
  id : Nat
  address : String
deriving DecidableEq

/-- A transfer row as read by `detectConnections`
(src/unnamed/part_004:126-134). -/
structure Transfer where
  from_address : String
  to_address : String
  chain : String
  token : String
  tx_hash : String
deriving DecidableEq

/-- The `evidence` JSON of a connection row, structurally: either
`{type:"direct_transfer", chain, token, tx_hash}` or
`{type:"shared_counterparty", external_address}`
(src/unnamed/part_004:147-152,194-197).  `JSON.stringify` is injective on
these two fixed shapes, so equality of the structured value coincides
with equality of the stored strings. -/
inductive Evidence where
  | direct (chain token tx_hash : String) : Evidence
  | shared (external_address : String) : Evidence
deriving DecidableEq

/-- A `connections` row (src/server/db.ts:106-114), key columns only. -/
structure Conn where
  address_id_1 : Nat
  address_id_2 : Nat
  connection_type : String
  evidence : Evidence
deriving DecidableEq

/-- The `insertConnection` (src/server/db.ts:288-308): canonicalize to
smaller id first, then `INSERT OR IGNORE` against
`UNIQUE(address_id_1, address_id_2, connection_type, evidence)`. -/
def insertConnection (table : List Conn) (id1 id2 : Nat)
    (ctype : String) (ev : Evidence) : List Conn :=
  let a := min id1 id2
  let b := max id1 id2
  let row : Conn := ⟨a, b, ctype, ev⟩
  if table.contains row then table else table ++ [row]

/-- The `Map.set` upsert for building `addressMap`
(src/unnamed/part_004:114-117): replace in place or append. -/
def mapSet : List (String × Nat) → String → Nat → List (String × Nat)
  | [], k, v => [(k, v)]
  | (k', v') :: rest, k, v =>
    if k' = k then (k, v) :: rest else (k', v') :: mapSet rest k v

/-- The `addressMap`: normalized address → address id
(src/unnamed/part_004:114-117). -/
def buildAddressMap (rows : List AddressRow) : List (String × Nat) :=
  rows.foldl (fun m a => mapSet m (normalizeAddress a.address) a.id) []

/-- The `addressMap.get` (`mapSet` keeps keys unique, so first-match lookup
is the JS `Map.get`). -/
def mapGet (m : List (String × Nat)) (k : String) : Option Nat :=
  (m.find? (fun p => p.1 = k)).map (·.2)

/-- The canonical direct-pair key of one transfer: `some (min, max)` of
the two mapped ids when both endpoints are known and distinct
(src/unnamed/part_004:140-144), else `none`. -/
def canonKey (amap : List (String × Nat)) (t : Transfer) : Option (Nat × Nat) :=
  match mapGet amap (normalizeAddress t.from_address),
        mapGet amap (normalizeAddress t.to_address) with
  | some f, some g => if f ≠ g then some (min f g, max f g) else none
  | _, _ => none

/-- State of the direct pass: the `directPairs` dedup set (the source
keys it by the string `"${min}-${max}"`, which encodes the pair
injectively, so the pair itself is stored) and the rows inserted so
far. -/
structure DirectSt where
  pairs : List (Nat × Nat)
  conns : List Conn
deriving DecidableEq

/-- One transfer of the direct pass (src/unnamed/part_004:139-162). -/
def directStep (amap : List (String × Nat)) (st : DirectSt) (t : Transfer) :
    DirectSt :=
  match mapGet amap (normalizeAddress t.from_address),
        mapGet amap (normalizeAddress t.to_address) with
  | some f, some g =>
    if f ≠ g then
      let key := (min f g, max f g)
      if st.pairs.contains key then st
      else
        ⟨st.pairs ++ [key],
         insertConnection st.conns f g "direct"
           (.direct t.chain t.token t.tx_hash)⟩
    else st
  | _, _ => st

/-- The counterparty map of the indirect pass: external normalized
address → JS `Set` of known ids (insertion order, duplicates
suppressed). -/
def setAdd (s : List Nat) (x : Nat) : List Nat :=
  if s.contains x then s else s ++ [x]

def cmapAdd : List (String × List Nat) → String → Nat → List (String × List Nat)
  | [], k, x => [(k, [x])]
  | (k', s) :: rest, k, x =>
    if k' = k then (k, setAdd s x) :: rest else (k', s) :: cmapAdd rest k x

def cmapGet (m : List (String × List Nat)) (k : String) : Option (List Nat) :=
  (m.find? (fun p => p.1 = k)).map (·.2)

/-- One transfer of the counterparty-map build
(src/unnamed/part_004:168-183): when exactly one endpoint is known, add
its id under the external endpoint's normalized address. -/
def counterpartyStep (amap : List (String × Nat))
    (m : List (String × List Nat)) (t : Transfer) : List (String × List Nat) :=
  let fromNorm := normalizeAddress t.from_address
  let toNorm := normalizeAddress t.to_address
  let fromId := mapGet amap fromNorm
  let toId := mapGet amap toNorm
  let m1 := match fromId, toId with
    | some f, none => cmapAdd m toNorm f
    | _, _ => m
  match toId, fromId with
  | some g, none => cmapAdd m1 fromNorm g
  | _, _ => m1

def counterpartyMap (amap : List (String × Nat)) (transfers : List Transfer) :
    List (String × List Nat) :=
  transfers.foldl (counterpartyStep amap) []

/-- The `i < j` double loop over a Set's elements
(src/unnamed/part_004:192-193), as the list of index-ordered pairs. -/
def pairsOf : List Nat → List (Nat × Nat)
  | [] => []
  | x :: xs => xs.map (fun y => (x, y)) ++ pairsOf xs

/-- The `MAX_FANOUT` (src/unnamed/part_004:187). -/
def MAX_FANOUT : Nat := 10

/-- The emission loop for one counterparty entry
(src/unnamed/part_004:188-207): entries with fan-out below 2 or above
`MAX_FANOUT` are skipped; otherwise every index-ordered pair is inserted
as an indirect connection evidenced by the external address. -/
def emitIndirect (conns : List Conn) (entry : String × List Nat) : List Conn :=
  if entry.2.length < 2 ∨ entry.2.length > MAX_FANOUT then conns
  else
    (pairsOf entry.2).foldl
      (fun cs p => insertConnection cs p.1 p.2 "indirect" (.shared entry.1)) conns

/-- The `detectConnections` (src/unnamed/part_004:106-210), returning the
rebuilt `connections` table (the old one having been cleared): the
deduplicated direct pass over all transfers, then the fan-out-bounded
indirect pass over the counterparty map. -/
def detectConnections (rows : List AddressRow) (transfers : List Transfer) :
    List Conn :=
  let amap := buildAddressMap rows
  let direct := transfers.foldl (directStep amap) ⟨[], []⟩
  let cmap := counterpartyMap amap transfers
  cmap.foldl emitIndirect direct.conns

/-- Boolean test used in statements: `t` is a transfer between the
canonical known pair `k` (both endpoints known after normalization and
distinct). -/
def isTransferFor (amap : List (String × Nat)) (k : Nat × Nat) (t : Transfer) :
    Bool :=
  decide (canonKey amap t = some k)

/-- Boolean test used in statements: `c` is a direct row stored for the
canonical pair `k`. -/
def directRowFor (k : Nat × Nat) (c : Conn) : Bool :=
  decide (c.connection_type = "direct" ∧ c.address_id_1 = k.1 ∧
    c.address_id_2 = k.2)

/-- The evidence JSON a direct insert serializes from a transfer
(src/unnamed/part_004:147-152). -/
def evidenceOf (t : Transfer) : Evidence := .direct t.chain t.token t.tx_hash

/-- The row the indirect pass inserts for index pair `p` of an external
address `e` (after `insertConnection`'s canonicalization). -/
def indirectRow (e : String) (p : Nat × Nat) : Conn :=
  ⟨min p.1 p.2, max p.1 p.2, "indirect", .shared e⟩

/-- Loop invariant of the direct pass: the `directPairs` set holds
exactly the canonical keys of processed transfers; each key has exactly
one stored direct row; and every stored row is canonical with the
evidence of the *first* processed transfer for its key. -/
def DirectInv (amap : List (String × Nat)) (done : List Transfer)
    (st : DirectSt) : Prop :=
  (∀ k : Nat × Nat, k ∈ st.pairs ↔ done.any (isTransferFor amap k) = true) ∧
  (∀ k : Nat × Nat, (st.conns.filter (directRowFor k)).length =
    if done.any (isTransferFor amap k) = true then 1 else 0) ∧
  (∀ c ∈ st.conns, c.connection_type = "direct" ∧
    c.address_id_1 < c.address_id_2 ∧
    ∃ t, done.find? (isTransferFor amap (c.address_id_1, c.address_id_2)) =
      some t ∧ c.evidence = evidenceOf t)

/-- Well-formedness of the counterparty map: keys are unique (it is a JS
`Map`) and every fan-out set is duplicate-free (it is a JS `Set`). -/
def CMapWF (m : List (String × List Nat)) : Prop :=
  (m.map (·.1)).Nodup ∧ ∀ p ∈ m, p.2.Nodup

/-- The fan-out set of an external counterparty address: the known ids
it has transacted with (empty when it never appears opposite a known
address). -/
def fanoutOf (rows : List AddressRow) (transfers : List Transfer)
    (e : String) : List Nat :=
  (cmapGet (counterpartyMap (buildAddressMap rows) transfers) e).getD []

end Connections

namespace Clusters

open Connections (Conn)

/-- The `UnionFind` class state (src/unnamed/part_004:45-97): `parent`
and `rank` maps, modelled as insertion-ordered association lists
(`parent`'s key list is exactly `parent.keys()` in insertion order,
since `Map.set` on an existing key keeps its position). -/
structure UnionFind where
  parent : List (Nat × Nat)
  rank : List (Nat × Nat)
deriving DecidableEq

/-- The `Map.get(x)` with a default.  `computeClusters` adds every node
before any `find`/`union` touches it, so the JS non-null assertions /
`undefined` cases never fire there; the default supplied at each use
site is the value `add` would have stored. -/
def lookupD (l : List (Nat × Nat)) (x d : Nat) : Nat :=
  ((l.find? (fun p => p.1 = x)).map (·.2)).getD d

/-- The `Map.set`: replace in place or append. -/
def setEntry : List (Nat × Nat) → Nat → Nat → List (Nat × Nat)
  | [], k, v => [(k, v)]
  | (k', v') :: rest, k, v =>
    if k' = k then (k, v) :: rest else (k', v') :: setEntry rest k v

/-- The `parent.keys()` in insertion order. -/
def UnionFind.keys (uf : UnionFind) : List Nat := uf.parent.map (·.1)

/-- The `add` (src/unnamed/part_004:49-54). -/
def UnionFind.add (uf : UnionFind) (x : Nat) : UnionFind :=
  if (uf.parent.find? (fun p => p.1 = x)).isSome then uf
  else ⟨uf.parent ++ [(x, x)], uf.rank ++ [(x, 0)]⟩

/-- The root-finding `while` loop of `find`
(src/unnamed/part_004:57-60), fuelled: a parent chain in a forest of
`n = parent.size` nodes reaches its root within `n` steps, so the fuel
passed by `find` never runs out on well-formed state (on malformed state
the JS loop would not terminate at all). -/
def chase (p : List (Nat × Nat)) : Nat → Nat → Nat
  | 0, x => x
  | fuel + 1, x =>
    let px := lookupD p x x
    if px = x then x else chase p fuel px

/-- The path-compression `while` loop of `find`
(src/unnamed/part_004:62-67): walk from `x` along the pre-update parent
pointers (each `next` is read before its node is redirected), pointing
every visited node at `root`. -/
def compressPath (root : Nat) : Nat → List (Nat × Nat) → Nat → List (Nat × Nat)
  | 0, p, _ => p
  | fuel + 1, p, curr =>
    if curr = root then p
    else
      let nxt := lookupD p curr curr
      compressPath root fuel (setEntry p curr root) nxt

/-- The `find` (src/unnamed/part_004:56-69): chase to the root, compress the
path, return the root. -/
def UnionFind.find (uf : UnionFind) (x : Nat) : UnionFind × Nat :=
  let fuel := uf.parent.length
  let root := chase uf.parent fuel x
  ⟨⟨compressPath root fuel uf.parent x, uf.rank⟩, root⟩

/-- The `union` (src/unnamed/part_004:71-86): find both roots, no-op when
equal, otherwise attach by rank (ties attach `ry` under `rx` and bump
`rx`'s rank). -/
def UnionFind.union (uf : UnionFind) (x y : Nat) : UnionFind :=
  let fx := uf.find x
  let fy := fx.1.find y
  let uf2 := fy.1
  let rx := fx.2
  let ry := fy.2
  if rx = ry then uf2
  else
    let rankX := lookupD uf2.rank rx 0
    let rankY := lookupD uf2.rank ry 0
    if rankX < rankY then ⟨setEntry uf2.parent rx ry, uf2.rank⟩
    else if rankX > rankY then ⟨setEntry uf2.parent ry rx, uf2.rank⟩
    else ⟨setEntry uf2.parent ry rx, setEntry uf2.rank rx (rankX + 1)⟩

/-- Append `x` to the bucket of `root` (insertion-ordered buckets), the
`groups` accumulation of src/unnamed/part_004:90-94. -/
def groupsAdd : List (Nat × List Nat) → Nat → Nat → List (Nat × List Nat)
  | [], root, x => [(root, [x])]
  | (r, ms) :: rest, root, x =>
    if r = root then (r, ms ++ [x]) :: rest
    else (r, ms) :: groupsAdd rest root x

/-- The `groups` (src/unnamed/part_004:88-96): for every key (snapshot of
`parent.keys()`; `find` adds no keys on well-formed state), find its
root — compressing as a side effect — and bucket it. -/
def UnionFind.groups (uf : UnionFind) : UnionFind × List (Nat × List Nat) :=
  uf.keys.foldl
    (fun acc x =>
      let fr := acc.1.find x
      (fr.1, groupsAdd acc.2 fr.2 x))
    (uf, [])

/-- A cluster (src/unnamed/part_004:30-34).  The source's `addresses`
field is the DB join of the member ids against the `addresses` table;
the `connections` table's `NOT NULL REFERENCES addresses(id)` foreign
keys guarantee one joined row per member id, so the member-id list
stands for it (in particular the two have the same length, the sort
key). -/
structure ClusterData where
  id : Nat
  memberIds : List Nat
  connections : List Conn
deriving DecidableEq

/-- One step of the stable insertion sort below: `x` is placed after
every already-placed element with a strictly larger key and before
every element with an equal or smaller key. -/
def insertByDesc (x : ClusterData) : List ClusterData → List ClusterData
  | [] => [x]
  | y :: ys =>
    if x.memberIds.length < y.memberIds.length then y :: insertByDesc x ys
    else x :: y :: ys

/-- The result of V8's stable `Array.prototype.sort` under the
comparator `(a, b) => b.addresses.length - a.addresses.length`
(src/unnamed/part_004:295): descending by member count, ties in original
order.  A stable sort's output is unique, and this structural insertion
sort produces exactly it (each element goes after strictly-larger keys
and before equal ones, preserving original order of ties). -/
def sortByDesc (l : List ClusterData) : List ClusterData :=
  l.foldr insertByDesc []

/-- The `computeClusters` (src/unnamed/part_004:214-298): build the
Union-Find over all connection endpoints, union only direct connections,
group by root, discard singleton groups, attach every connection whose
both endpoints are members, and sort by descending member count. -/
def computeClusters (connections : List Conn) : List ClusterData :=
  if connections.length = 0 then []
  else
    let uf : UnionFind := connections.foldl
      (fun (uf : UnionFind) c =>
        let ufa := (uf.add c.address_id_1).add c.address_id_2
        if c.connection_type = "direct" then
          ufa.union c.address_id_1 c.address_id_2
        else ufa)
      ⟨[], []⟩
    let grps := uf.groups.2
    let pre := (grps.foldl
      (fun (acc : Nat × List ClusterData) g =>
        if g.2.length < 2 then acc
        else
          let clusterConnections := connections.filter
            (fun c => g.2.contains c.address_id_1 && g.2.contains c.address_id_2)
          (acc.1 + 1, acc.2 ++ [⟨acc.1, g.2, clusterConnections⟩]))
      (1, [])).2
    sortByDesc pre

/-- The direct-connection adjacency of a connection list: `x` and `y` are
the two endpoints of some row marked `"direct"`. -/
def directEdge (connections : List Conn) (x y : Nat) : Prop :=
  ∃ c ∈ connections, c.connection_type = "direct" ∧
    ((c.address_id_1 = x ∧ c.address_id_2 = y) ∨
     (c.address_id_1 = y ∧ c.address_id_2 = x))

/-- Connectivity through direct connections alone: the
reflexive-symmetric-transitive closure of `directEdge`. -/
def DirectReach (connections : List Conn) (x y : Nat) : Prop :=
  Relation.EqvGen (directEdge connections) x y

end Clusters

namespace Phantom

/-- Whether a LevelDB value parses to an entry with a truthy
`content.encrypted` — the test `findVault` applies to every
prefix-matched seed / private-key value (src/src/phantom.ts:96-100). -/
def entryUsable (jp : String → Option Json) (v : String) : Bool :=
  match parseEntry jp v with
  | some entry => optTruthy ((entry.getField "content").bind (·.getField "encrypted"))
  | none => false

end Phantom

/-! ### Concrete fixtures used by witnesses and counterexamples -/

namespace Fixtures

/-- A Phantom primitive set where the master-key blob (`"mk"`) opens to
`[7]`, the blob `"s2"` opens to `[8]`, and everything else fails to
open. -/
def phantomPrimsCex : Phantom.PhantomPrims where
  bs58decode := fun s =>
    if s = "mk" then [1] else if s = "s1" then [2] else if s = "s2" then [3] else [0]
  utf8Encode := fun _ => []
  scrypt := fun _ _ _ _ _ _ => []
  pbkdf2 := fun _ _ _ _ _ => []
  secretboxOpen := fun ct _ _ =>
    if ct = [1] then some [7] else if ct = [3] then some [8] else none
  utf8Decode := fun _ => ""
  jsonParse := fun _ => none

/-- An encrypted-content fixture with the given ciphertext label. -/
def encOf (s : String) : Phantom.EncryptedContent :=
  ⟨s, "n", "t", "pbkdf2", none, none⟩

/-- A Phantom vault whose first seed entry fails stage 2 and whose
second seed entry would succeed. -/
def phantomVaultCex : Phantom.PhantomVaultData :=
  ⟨⟨encOf "mk"⟩, [⟨encOf "s1"⟩, ⟨encOf "s2"⟩], []⟩

/-- A Phantom vault whose entries all decrypt. -/
def phantomVaultOk : Phantom.PhantomVaultData :=
  ⟨⟨encOf "mk"⟩, [⟨encOf "s2"⟩], [⟨encOf "s2"⟩]⟩

/-- MetaMask primitives for the witness: every base64 decode yields 16
zero bytes. -/
def mmPrims : MetaMask.CryptoPrims where
  b64 := fun _ => List.replicate 16 0
  pbkdf2 := fun _ _ _ _ _ => []
  aesGcmDecrypt := fun _ _ _ _ => none

/-- A MetaMask vault fixture without KDF metadata. -/
def mmVault : MetaMask.MetaMaskVault := ⟨"d", "i", "s", none⟩

/-- A `JSON.parse` fixture: the string `"EK"` parses to a valid
encryption-key object, everything else fails to parse. -/
def jpFix : String → Option Phantom.Json := fun s =>
  if s = "EK" then
    some (.obj [("encryptedKey", .obj [("encrypted", .str "x")])])
  else none

/-- A Phantom LevelDB snapshot with a valid encryption-key entry and one
seed-prefixed entry whose value is unusable. -/
def phantomEntriesFix : List (String × String) :=
  [(Phantom.KEY_ENCRYPTION, "EK"), (Phantom.PREFIX_SEED ++ "h1", "junk")]

/-- A concrete Alchemy transfer on block `0x10`. -/
def t1 : Fetcher.ATransfer :=
  ⟨"0xSender", "0xReceiver", some "USDC", "erc20", "0xhash1", "0x10", some 5⟩

/-- An EVM unit whose `from`-direction request delivers one page with a
continuation key and is then rate-limited four times in a row
(exhausting the retry bound), and whose `to`-direction request delivers
an empty final page. -/
def evmUnit429 : Fetcher.EvmUnit :=
  ⟨1, "0xaaaa01",
   [.page [t1] (some "pk"), .rateLimited, .rateLimited, .rateLimited, .rateLimited],
   [.page [] none]⟩

/-- An empty scan state. -/
def scanSt0 : Fetcher.ScanSt := ⟨[], [], [], 0, 0⟩

/-- An EVM unit whose `from`-direction request throws four times in a
row after its first page, exhausting the retry budget and rethrowing. -/
def evmUnitThrow (m : String) : Fetcher.EvmUnit :=
  ⟨1, "0xbbbbbb02",
   [.page [] (some "k"), .failure m, .failure m, .failure m, .failure m],
   []⟩

/-- A healthy EVM unit: both directions answer one empty final page. -/
def evmUnitOk : Fetcher.EvmUnit :=
  ⟨2, "0xcccccc03", [.page [] none], [.page [] none]⟩

/-- Two known addresses for the connection-detector witnesses. -/
def rowsFix : List Connections.AddressRow := [⟨1, "Alice"⟩, ⟨2, "Bob"⟩]

/-- Transfers: two between the known pair (the second must add no row),
and one from each known address to the external counterparty "Xena"
(fan-out 2 → one indirect connection). -/
def transfersFix : List Connections.Transfer :=
  [⟨"Alice", "Bob", "c", "T", "h1"⟩, ⟨"Bob", "Alice", "c", "T", "h2"⟩,
   ⟨"Alice", "Xena", "c", "T", "h3"⟩, ⟨"Bob", "Xena", "c", "T", "h4"⟩]

/-- Trivial JS formatting black boxes for witnesses. -/
def fmtFix : Fetcher.JsFmt := ⟨fun _ => "", fun _ => "", fun _ => ""⟩

/-- A Solana unit whose single request answers an empty page. -/
def solUnitFix : Fetcher.SolUnit := ⟨1, "So11111", [.page []]⟩

/-- Connections for the cluster witness: a direct and an indirect row
on the pair (1, 2), plus an indirect-only pair (3, 4). -/
def connsFix : List Connections.Conn :=
  [⟨1, 2, "direct", .direct "c" "T" "h1"⟩,
   ⟨1, 2, "indirect", .shared "Xena"⟩,
   ⟨3, 4, "indirect", .shared "Yara"⟩]

/-- The single cluster the builder produces on `connsFix`: the pair
(3, 4), joined only indirectly, never fuses and its singleton groups
are discarded. -/
def clFix : Clusters.ClusterData :=
  ⟨1, [1, 2],
   [⟨1, 2, "direct", .direct "c" "T" "h1"⟩,
    ⟨1, 2, "indirect", .shared "Xena"⟩]⟩

/-- A scan state with an EVM cursor already at block 5. -/
def scanStCursor5 : Fetcher.ScanSt := ⟨[], [((1, "ethereum"), 5)], [], 0, 0⟩

/-- A scan state with a *Solana* cursor already at block 5. -/
def scanStSolCursor5 : Fetcher.ScanSt := ⟨[], [((1, "solana"), 5)], [], 0, 0⟩

/-- A healthy EVM unit for address id 1. -/
def evmUnitOk1 : Fetcher.EvmUnit :=
  ⟨1, "0xdddddd04", [.page [] none], [.page [] none]⟩

end Fixtures

/-! ### Theorems -/

/-- Claim C3. For every MetaMask vault `{data, iv, salt}` and password,
`decryptVault` derives a 32-byte key via PBKDF2-HMAC-SHA256 over the
password and the base64-decoded salt, using the iteration count from the
vault's embedded KDF metadata and defaulting to 10000 when it is absent;
it treats the final 16 bytes of the base64-decoded ciphertext as the
AEAD authentication tag and the remainder as the actual ciphertext, and
decrypts with AES-256-GCM under the vault's IV.  Formally: on every
ciphertext of at least tag length, the source translation agrees with
`decryptVaultSpec`, the claim verbatim. -/
theorem metamask_decryptVault_matches_spec (P : MetaMask.CryptoPrims)
    (vault : MetaMask.MetaMaskVault) (password : String)
    (h : 16 ≤ (P.b64 vault.data).length) :
    MetaMask.decryptVault P vault password =
      MetaMask.decryptVaultSpec P vault password := by
  unfold MetaMask.decryptVault MetaMask.decryptVaultSpec
  have hnn : ¬ (((P.b64 vault.data).length : Int) - 16 < 0) := by omega
  have h16 : ((((P.b64 vault.data).length : Int) - 16)).toNat
      = (P.b64 vault.data).length - 16 := by omega
  have hL : (((P.b64 vault.data).length : Int)).toNat = (P.b64 vault.data).length := by
    omega
  simp only [MetaMask.jsSubarray, MetaMask.jsIdx, hnn, if_false, h16, hL]
  have hmin : min ((P.b64 vault.data).length - 16) (P.b64 vault.data).length
      = (P.b64 vault.data).length - 16 := by omega
  have hmin2 : min (P.b64 vault.data).length (P.b64 vault.data).length
      = (P.b64 vault.data).length := by omega
  have hpos : ¬ (((P.b64 vault.data).length : Int) < 0) := by omega
  rw [hmin, hmin2]
  simp [hpos, List.take_length]

/-- Witness for C3 at a concrete primitive set and vault. -/
theorem metamask_decryptVault_matches_spec_witness :
    16 ≤ (Fixtures.mmPrims.b64 Fixtures.mmVault.data).length ∧
      MetaMask.decryptVault Fixtures.mmPrims Fixtures.mmVault "pw" =
        MetaMask.decryptVaultSpec Fixtures.mmPrims Fixtures.mmVault "pw" :=
  ⟨by decide,
   metamask_decryptVault_matches_spec Fixtures.mmPrims Fixtures.mmVault "pw" (by decide)⟩

/-- Claim C7. The scan orchestrator enforces single-flight: with the
in-progress flag set, `scanAndComputeConnections` fails immediately
(returning the rejection error with the state untouched, before any
work); with it clear, every completion path — whatever the three steps
do, success or internal failure — leaves the in-progress flag cleared
and the live-progress record cleared. -/
theorem scan_orchestrator_single_flight
    (s : Except String Fetcher.ScanSt) (d c : Except String Nat)
    (st : Orchestrator.LiveScanState) :
    (st.scanning = true →
      Orchestrator.scanAndComputeConnections (Orchestrator.scanBody s d c) st =
        (st, .error "Scan already in progress")) ∧
    (st.scanning = false →
      (Orchestrator.scanAndComputeConnections (Orchestrator.scanBody s d c) st).1.scanning
          = false ∧
      (Orchestrator.scanAndComputeConnections (Orchestrator.scanBody s d c) st).1.progress
          = none) := by
  constructor
  · intro h
    simp [Orchestrator.scanAndComputeConnections, h]
  · intro h
    simp [Orchestrator.scanAndComputeConnections, h]

/-- Witness for C7: a rejected second scan and a completed scan at
concrete states. -/
theorem scan_orchestrator_single_flight_witness :
    (Orchestrator.scanAndComputeConnections
        (Orchestrator.scanBody (.ok ⟨[], [], [], 0, 0⟩) (.ok 0) (.ok 0))
        ⟨true, none, none⟩ =
      (⟨true, none, none⟩, .error "Scan already in progress")) ∧
    ((Orchestrator.scanAndComputeConnections
        (Orchestrator.scanBody (.error "db down") (.ok 0) (.ok 0))
        ⟨false, none, none⟩).1.scanning = false ∧
     (Orchestrator.scanAndComputeConnections
        (Orchestrator.scanBody (.error "db down") (.ok 0) (.ok 0))
        ⟨false, none, none⟩).1.progress = none) :=
  ⟨(scan_orchestrator_single_flight (.ok ⟨[], [], [], 0, 0⟩) (.ok 0) (.ok 0)
      ⟨true, none, none⟩).1 rfl,
   (scan_orchestrator_single_flight (.error "db down") (.ok 0) (.ok 0)
      ⟨false, none, none⟩).2 rfl⟩

set_option maxRecDepth 100000 in
/-- Claim C9 counterexample. On the 64-byte buffer `0,1,…,63`, the
decrypted private-key entry is *not* extracted with the signing seed
(first 32 bytes) base58-encoded into the secret-key slot: the code
base58-encodes the *entire* 64-byte buffer there, and that string
differs from the base58 encoding of the first 32 bytes. -/
theorem phantom_extractKeypair_seed_not_encoded :
    Phantom.extractKeypair ⟨some ⟨some (List.range 64)⟩⟩ =
      some ⟨Phantom.bs58encode ((List.range 64).drop 32),
            Phantom.bs58encode (List.range 64)⟩ ∧
    Phantom.bs58encode (List.range 64) ≠
      Phantom.bs58encode ((List.range 64).take 32) := by
  constructor
  · decide
  · decide

/-- Claim C9, amended. For every decrypted Phantom private-key entry of
shape with a byte array: if the buffer is exactly 64 bytes it is
interpreted as an Ed25519 keypair whose first 32 bytes are the signing
seed and last 32 bytes are the public key; the public key is
base58-encoded into `publicKey`, while `secretKey` receives the base58
encoding of the entire 64-byte buffer (seed followed by public key), not
of the seed alone; otherwise the whole buffer is treated as an opaque
secret (base58-encoded into `secretKey`) with `publicKey`
`"(unknown)"`. -/
theorem phantom_extractKeypair_encoding (arr : List Nat) :
    (arr.length = 64 →
      Phantom.extractKeypair ⟨some ⟨some arr⟩⟩ =
        some ⟨Phantom.bs58encode ((arr.map (fun b => b % 256)).drop 32),
              Phantom.bs58encode ((arr.map (fun b => b % 256)).take 32 ++
                (arr.map (fun b => b % 256)).drop 32)⟩) ∧
    (arr.length ≠ 64 →
      Phantom.extractKeypair ⟨some ⟨some arr⟩⟩ =
        some ⟨"(unknown)", Phantom.bs58encode (arr.map (fun b => b % 256))⟩) := by
  constructor
  · intro h
    simp [Phantom.extractKeypair, List.take_append_drop, h]
  · intro h
    simp [Phantom.extractKeypair, h]

/-- Witness for C9 (amended), at a 64-byte buffer and a 3-byte buffer. -/
theorem phantom_extractKeypair_encoding_witness :
    Phantom.extractKeypair ⟨some ⟨some (List.range 64)⟩⟩ =
      some ⟨Phantom.bs58encode (((List.range 64).map (fun b => b % 256)).drop 32),
            Phantom.bs58encode (((List.range 64).map (fun b => b % 256)).take 32 ++
              ((List.range 64).map (fun b => b % 256)).drop 32)⟩ ∧
    Phantom.extractKeypair ⟨some ⟨some [300, 1, 2]⟩⟩ =
      some ⟨"(unknown)", Phantom.bs58encode ([300, 1, 2].map (fun b => b % 256))⟩ :=
  ⟨(phantom_extractKeypair_encoding (List.range 64)).1 (by decide),
   (phantom_extractKeypair_encoding [300, 1, 2]).2 (by decide)⟩

/-- Helper: the seed / private-key collection loop of `findVault`
gathers nothing when every prefix-matched value is unusable. -/
theorem collect_nothing (jp : String → Option Phantom.Json)
    (l : List (String × String)) (acc : List Phantom.Json × List Phantom.Json)
    (h : ∀ kv ∈ l, (jsStartsWith kv.1 Phantom.PREFIX_SEED = true ∨
        jsStartsWith kv.1 Phantom.PREFIX_PRIVATE_KEY = true) →
      Phantom.entryUsable jp kv.2 = false) :
    l.foldl (Phantom.collectStep jp) acc = acc := by
  induction l generalizing acc with
  | nil => rfl
  | cons kv rest ih =>
    have hkv := h kv (by simp)
    have hrest : ∀ kv ∈ rest, (jsStartsWith kv.1 Phantom.PREFIX_SEED = true ∨
        jsStartsWith kv.1 Phantom.PREFIX_PRIVATE_KEY = true) →
        Phantom.entryUsable jp kv.2 = false :=
      fun kv hm => h kv (by simp [hm])
    rw [List.foldl_cons]
    have hstep : Phantom.collectStep jp acc kv = acc := by
      unfold Phantom.collectStep
      by_cases hs : jsStartsWith kv.1 Phantom.PREFIX_SEED
      · have hu := hkv (Or.inl hs)
        unfold Phantom.entryUsable at hu
        cases hpe : Phantom.parseEntry jp kv.2 with
        | none => simp [hs, hpe]
        | some e =>
          rw [hpe] at hu
          have hu' : Phantom.optTruthy ((e.getField "content").bind
              (·.getField "encrypted")) = false := hu
          simp [hs, hpe, hu']
      · by_cases hp : jsStartsWith kv.1 Phantom.PREFIX_PRIVATE_KEY
        · have hu := hkv (Or.inr hp)
          unfold Phantom.entryUsable at hu
          cases hpe : Phantom.parseEntry jp kv.2 with
          | none => simp [hs, hp, hpe]
          | some e =>
            rw [hpe] at hu
            have hu' : Phantom.optTruthy ((e.getField "content").bind
                (·.getField "encrypted")) = false := hu
            simp [hs, hp, hpe, hu']
        · simp [hs, hp]
    rw [hstep]
    exact ih acc hrest

/-- Claim C10. The Phantom vault locator returns "not found" (`null`) not
only when the exact encryption-key entry is absent, but also when the
encryption-key entry is present and valid yet no seed entry and no
private-key entry with usable encrypted content exists under the
seed / private-key prefixes. -/
theorem phantom_findVault_requires_entries
    (jp : String → Option Phantom.Json) (entries : List (String × String)) :
    (lookupLast entries Phantom.KEY_ENCRYPTION = none →
      Phantom.findVault jp entries = none) ∧
    (∀ raw ek, lookupLast entries Phantom.KEY_ENCRYPTION = some raw →
      Phantom.parseEntry jp raw = some ek →
      Phantom.optTruthy ((ek.getField "encryptedKey").bind
        (·.getField "encrypted")) = true →
      (∀ kv ∈ entries, (jsStartsWith kv.1 Phantom.PREFIX_SEED = true ∨
          jsStartsWith kv.1 Phantom.PREFIX_PRIVATE_KEY = true) →
        Phantom.entryUsable jp kv.2 = false) →
      Phantom.findVault jp entries = none) := by
  constructor
  · intro h
    unfold Phantom.findVault
    rw [h]
  · intro raw ek hraw hek htr hnone
    unfold Phantom.findVault
    rw [hraw]
    dsimp only
    rw [hek]
    dsimp only
    rw [htr, collect_nothing jp entries ([], []) hnone]
    simp

set_option maxRecDepth 4000 in
/-- Witness for C10: a snapshot with a valid encryption-key entry and a
seed-prefixed entry that does not parse is reported as "not found". -/
theorem phantom_findVault_requires_entries_witness :
    Phantom.findVault Fixtures.jpFix Fixtures.phantomEntriesFix = none :=
  (phantom_findVault_requires_entries Fixtures.jpFix Fixtures.phantomEntriesFix).2
    "EK" (.obj [("encryptedKey", .obj [("encrypted", .str "x")])])
    rfl rfl rfl (by decide)

/-- Helper: the stage-2 entry loop throws its message as soon as some
entry fails to open. -/
theorem decryptEntries_error_of_fail (P : Phantom.PhantomPrims)
    (master : List Nat) (msg : String) (l : List Phantom.PhantomVaultEntry)
    (h : ∃ e ∈ l, Phantom.decryptBox P e.content
      (Phantom.deriveKey P (.bytes master) e.content) = none) :
    Phantom.decryptEntries P master msg l = .error msg := by
  induction l with
  | nil => simp at h
  | cons e rest ih =>
    by_cases he : Phantom.decryptBox P e.content
        (Phantom.deriveKey P (.bytes master) e.content) = none
    · unfold Phantom.decryptEntries
      rw [he]
    · obtain ⟨x, hx, hfail⟩ := h
      have hxr : x ∈ rest := by
        rcases List.mem_cons.mp hx with h1 | h1
        · exact absurd (h1 ▸ hfail) he
        · exact h1
      obtain ⟨b, hb⟩ := Option.ne_none_iff_exists'.mp he
      unfold Phantom.decryptEntries
      rw [hb, ih ⟨x, hxr, hfail⟩]

/-- Helper: the stage-2 entry loop succeeds when every entry opens. -/
theorem decryptEntries_ok_of_all (P : Phantom.PhantomPrims)
    (master : List Nat) (msg : String) (l : List Phantom.PhantomVaultEntry)
    (h : ∀ e ∈ l, Phantom.decryptBox P e.content
      (Phantom.deriveKey P (.bytes master) e.content) ≠ none) :
    ∃ out, Phantom.decryptEntries P master msg l = .ok out := by
  induction l with
  | nil => exact ⟨[], rfl⟩
  | cons e rest ih =>
    obtain ⟨b, hb⟩ := Option.ne_none_iff_exists'.mp (h e (by simp))
    obtain ⟨out, hout⟩ := ih (fun x hx => h x (by simp [hx]))
    refine ⟨Phantom.parseOrString P (P.utf8Decode b) :: out, ?_⟩
    unfold Phantom.decryptEntries
    rw [hb, hout]

/-- Claim C1 counterexample. A concrete Phantom vault where stage 1
succeeds, the first seed entry fails stage 2, and the second seed entry
would open: decryption of the whole vault throws the stage-2 error, so
the sibling entry that secretbox-opens successfully appears in no
decrypted result — refuting the claim that a stage-2 failure is scoped
to one entry and does not abort the siblings. -/
theorem phantom_stage2_aborts_counterexample :
    Phantom.decryptVault Fixtures.phantomPrimsCex Fixtures.phantomVaultCex "pw" =
      .error Phantom.stage2SeedMsg ∧
    Phantom.decryptBox Fixtures.phantomPrimsCex (Fixtures.encOf "s2")
      (Phantom.deriveKey Fixtures.phantomPrimsCex (.bytes [7])
        (Fixtures.encOf "s2")) = some [8] ∧
    Phantom.stage2SeedMsg ≠ Phantom.stage1Msg :=
  ⟨rfl, rfl, by decide⟩

/-- Claim C1, amended. For every Phantom vault whose stage-1 (master key)
decryption succeeds, a stage-2 decryption failure of a seed or
private-key entry is reported with a distinct stage-scoped error message
(naming stage 2 and the entry kind, and different from the stage-1
wrong-password error), but it aborts the entire decryption — no sibling
entry appears in any decrypted result; only when every entry opens does
decryption return a result. -/
theorem phantom_stage2_failure_aborts (P : Phantom.PhantomPrims)
    (vd : Phantom.PhantomVaultData) (pw : String) (master : List Nat)
    (h1 : Phantom.decryptBox P vd.encryptionKey.encryptedKey
      (Phantom.deriveKey P (.str pw) vd.encryptionKey.encryptedKey) = some master) :
    ((∃ e ∈ vd.seeds, Phantom.decryptBox P e.content
        (Phantom.deriveKey P (.bytes master) e.content) = none) →
      Phantom.decryptVault P vd pw = .error Phantom.stage2SeedMsg) ∧
    ((∀ e ∈ vd.seeds, Phantom.decryptBox P e.content
        (Phantom.deriveKey P (.bytes master) e.content) ≠ none) →
      (∃ e ∈ vd.privateKeys, Phantom.decryptBox P e.content
        (Phantom.deriveKey P (.bytes master) e.content) = none) →
      Phantom.decryptVault P vd pw = .error Phantom.stage2PkMsg) ∧
    ((∀ e ∈ vd.seeds ++ vd.privateKeys, Phantom.decryptBox P e.content
        (Phantom.deriveKey P (.bytes master) e.content) ≠ none) →
      ∃ dv, Phantom.decryptVault P vd pw = .ok dv) ∧
    Phantom.stage2SeedMsg ≠ Phantom.stage1Msg ∧
    Phantom.stage2PkMsg ≠ Phantom.stage1Msg ∧
    Phantom.stage2SeedMsg ≠ Phantom.stage2PkMsg := by
  refine ⟨?_, ?_, ?_, by decide, by decide, by decide⟩
  · intro h
    unfold Phantom.decryptVault
    rw [h1]
    dsimp only
    rw [decryptEntries_error_of_fail P master Phantom.stage2SeedMsg vd.seeds h]
  · intro hs hp
    unfold Phantom.decryptVault
    obtain ⟨out, hout⟩ := decryptEntries_ok_of_all P master Phantom.stage2SeedMsg
      vd.seeds hs
    rw [h1]
    dsimp only
    rw [hout]
    dsimp only
    rw [decryptEntries_error_of_fail P master Phantom.stage2PkMsg vd.privateKeys hp]
  · intro hall
    obtain ⟨out1, hout1⟩ := decryptEntries_ok_of_all P master Phantom.stage2SeedMsg
      vd.seeds (fun e he => hall e (by simp [he]))
    obtain ⟨out2, hout2⟩ := decryptEntries_ok_of_all P master Phantom.stage2PkMsg
      vd.privateKeys (fun e he => hall e (by simp [he]))
    refine ⟨⟨out1, out2⟩, ?_⟩
    unfold Phantom.decryptVault
    rw [h1]
    dsimp only
    rw [hout1]
    dsimp only
    rw [hout2]

/-- Witness for C1 (amended): the vault whose entries all open
decrypts, and the two-seed vault with one failing entry yields the
stage-2 seed error. -/
theorem phantom_stage2_failure_aborts_witness :
    Phantom.decryptVault Fixtures.phantomPrimsCex Fixtures.phantomVaultCex "pw" =
      .error Phantom.stage2SeedMsg ∧
    ∃ dv, Phantom.decryptVault Fixtures.phantomPrimsCex Fixtures.phantomVaultOk "pw" =
      .ok dv :=
  ⟨(phantom_stage2_failure_aborts Fixtures.phantomPrimsCex Fixtures.phantomVaultCex
      "pw" [7] rfl).1 ⟨⟨Fixtures.encOf "s1"⟩, by decide, rfl⟩,
   (phantom_stage2_failure_aborts Fixtures.phantomPrimsCex Fixtures.phantomVaultOk
      "pw" [7] rfl).2.2.1 (by
        intro e he
        have : e = ⟨Fixtures.encOf "s2"⟩ := by
          simpa [Fixtures.phantomVaultOk] using he
        rw [this]
        simp [Phantom.decryptBox, Fixtures.phantomPrimsCex, Fixtures.encOf,
          Phantom.deriveKey])⟩

/-- Claim C2 counterexample. A concrete (address, chain) unit whose
`from`-direction pagination delivers one page and is then rate-limited
four consecutive times: the three permitted retries back off
exponentially (sleeps 2000, 4000, 8000 ms), the fourth 429 exceeds the
bound — and the fetch then returns *successfully* with the partial data,
so the unit completes with no entry in the scan's error list and its
cursor advanced, refuting the claim that exceeding the bound aborts the
unit and records a non-fatal error. -/
theorem alchemy_rate_limit_exhaustion_is_silent :
    Fetcher.fetchAlchemyTransfers Fixtures.evmUnit429.scriptFrom
        Fixtures.evmUnit429.address "from" 0 =
      .ok ⟨[Fixtures.t1], 16, [150, 2000, 4000, 8000]⟩ ∧
    (Fetcher.scanEvmUnit "ethereum" Fixtures.scanSt0 Fixtures.evmUnit429).errors = [] ∧
    (Fetcher.scanEvmUnit "ethereum" Fixtures.scanSt0
        Fixtures.evmUnit429).transfers.length = 1 ∧
    Fetcher.getScanState
        (Fetcher.scanEvmUnit "ethereum" Fixtures.scanSt0 Fixtures.evmUnit429).cursors
        1 "ethereum" = some 16 :=
  ⟨rfl, rfl, rfl, rfl⟩

/-- Claim C2, amended. For every (address, chain) unit: a rate-limit
signal received while a pagination cursor is pending triggers
exponential backoff (1000·2^k ms) and retry up to a bound of 3; when the
bound is exceeded, pagination for that request stops *silently* — the
transfers already fetched are kept, no error is recorded, and the scan
proceeds; a rate-limit received before any continuation cursor exists
ends the request after a single backoff without retrying.  Only a
non-rate-limit failure that exhausts the retry budget aborts the unit
with a thrown error, which is recorded as a non-fatal entry in the
scan's error list, after which the scan proceeds to the next unit. -/
theorem alchemy_rate_limit_backoff (ts1 ts2 : List Fetcher.ATransfer) (pk : String)
    (rest : List Fetcher.AlchemyResp) (a d : String) (fb : Nat) (m : String)
    (fmt : Fetcher.JsFmt) :
    Fetcher.fetchAlchemyTransfers
        (.page ts1 (some pk) :: .rateLimited :: .rateLimited :: .rateLimited ::
          .page ts2 none :: rest) a d fb =
      .ok ⟨ts1 ++ ts2, ts2.foldl Fetcher.updMax (ts1.foldl Fetcher.updMax fb),
           [150, 2000, 4000, 8000, 150]⟩ ∧
    Fetcher.fetchAlchemyTransfers
        (.page ts1 (some pk) :: .rateLimited :: .rateLimited :: .rateLimited ::
          .rateLimited :: rest) a d fb =
      .ok ⟨ts1, ts1.foldl Fetcher.updMax fb, [150, 2000, 4000, 8000]⟩ ∧
    Fetcher.fetchAlchemyTransfers (.rateLimited :: rest) a d fb =
      .ok ⟨[], fb, [2000]⟩ ∧
    (Fetcher.scanTransferHistory fmt
        [("ethereum", [Fixtures.evmUnitThrow m, Fixtures.evmUnitOk])] [] [] []).errors =
      [Fetcher.evmErrMsg "ethereum" (Fixtures.evmUnitThrow m).address m] ∧
    (Fetcher.scanTransferHistory fmt
        [("ethereum", [Fixtures.evmUnitThrow m, Fixtures.evmUnitOk])] []
        [] []).addressesScanned = 2 ∧
    Fetcher.getScanState
        (Fetcher.scanTransferHistory fmt
          [("ethereum", [Fixtures.evmUnitThrow m, Fixtures.evmUnitOk])] [] [] []).cursors
        2 "ethereum" = some 0 :=
  ⟨rfl, rfl, rfl, rfl, rfl, rfl⟩

/-- Helper: the per-transfer max update equals a `max` against the
zero-seeded update. -/
theorem updMax_eq_max (s : Nat) (t : Fetcher.ATransfer) :
    Fetcher.updMax s t = max s (Fetcher.updMax 0 t) := by
  unfold Fetcher.updMax
  cases Fetcher.parseIntHex t.blockNum with
  | none => simp
  | some b =>
    simp only
    split <;> split <;> omega

/-- Helper: seed shifting for the max-fold. -/
theorem foldl_updMax_shift (ts : List Fetcher.ATransfer) (s : Nat) :
    ts.foldl Fetcher.updMax s = max s (ts.foldl Fetcher.updMax 0) := by
  induction ts generalizing s with
  | nil => simp
  | cons t ts ih =>
    simp only [List.foldl_cons]
    rw [ih (Fetcher.updMax s t), ih (Fetcher.updMax 0 t), updMax_eq_max s t,
      Nat.max_assoc]

/-- Helper: the max-fold never drops below its seed. -/
theorem foldl_updMax_ge (ts : List Fetcher.ATransfer) (s : Nat) :
    s ≤ ts.foldl Fetcher.updMax s := by
  rw [foldl_updMax_shift]
  exact Nat.le_max_left _ _

/-- Helper: a successful Alchemy pagination returns exactly the
transfers it appended past its accumulator, with `maxBlock` the max-fold
of those transfers over the incoming maximum. -/
theorem fetchAlchemyGo_ok (script : List Fetcher.AlchemyResp)
    (pkey : Option String) (r : Nat) (acc : List Fetcher.ATransfer) (mb : Nat)
    (sl : List Nat) (out : Fetcher.FetchOut)
    (h : Fetcher.fetchAlchemyGo script pkey r acc mb sl = .ok out) :
    ∃ ts, out.transfers = acc ++ ts ∧ out.maxBlock = ts.foldl Fetcher.updMax mb := by
  induction script generalizing pkey r acc mb sl with
  | nil => simp [Fetcher.fetchAlchemyGo] at h
  | cons resp rest ih =>
    cases resp with
    | rateLimited =>
      unfold Fetcher.fetchAlchemyGo at h
      dsimp only at h
      by_cases hr : 3 < r + 1
      · rw [if_pos hr] at h
        obtain rfl : (⟨acc, mb, sl⟩ : Fetcher.FetchOut) = out := by
          simpa using h
        exact ⟨[], by simp, rfl⟩
      · rw [if_neg hr] at h
        cases pkey with
        | some pk => exact ih _ _ _ _ _ h
        | none =>
          obtain rfl : (⟨acc, mb, sl ++ [1000 * 2 ^ (r + 1)]⟩ : Fetcher.FetchOut)
              = out := by simpa using h
          exact ⟨[], by simp, rfl⟩
    | failure m =>
      unfold Fetcher.fetchAlchemyGo at h
      dsimp only at h
      by_cases hr : 3 < r + 1
      · rw [if_pos hr] at h
        simp at h
      · rw [if_neg hr] at h
        cases pkey with
        | some pk => exact ih _ _ _ _ _ h
        | none =>
          obtain rfl : (⟨acc, mb, sl ++ [1000 * 2 ^ (r + 1)]⟩ : Fetcher.FetchOut)
              = out := by simpa using h
          exact ⟨[], by simp, rfl⟩
    | page ts pk =>
      unfold Fetcher.fetchAlchemyGo at h
      dsimp only at h
      cases pk with
      | some pk' =>
        obtain ⟨ts', htr, hmb⟩ := ih _ _ _ _ _ h
        exact ⟨ts ++ ts', by rw [htr, List.append_assoc],
          by rw [hmb, List.foldl_append]⟩
      | none =>
        obtain rfl : (⟨acc ++ ts, ts.foldl Fetcher.updMax mb, sl ++ [150]⟩ :
            Fetcher.FetchOut) = out := by simpa using h
        exact ⟨ts, rfl, rfl⟩

/-- Helper: `maxBlock` of a successful top-level fetch is the max-fold
of the returned transfers over the starting block. -/
theorem fetchAlchemyTransfers_maxBlock (script : List Fetcher.AlchemyResp)
    (a d : String) (fb : Nat) (out : Fetcher.FetchOut)
    (h : Fetcher.fetchAlchemyTransfers script a d fb = .ok out) :
    out.maxBlock = out.transfers.foldl Fetcher.updMax fb := by
  obtain ⟨ts, htr, hmb⟩ := fetchAlchemyGo_ok script none 0 [] fb [] out h
  rw [htr, hmb]
  simp

/-- Helper: one EVM transfer insert never touches the cursor table or
the error list. -/
theorem insertAlchemyTransfer_cursors (chain : String) (st : Fetcher.ScanSt)
    (t : Fetcher.ATransfer) :
    (Fetcher.insertAlchemyTransfer chain st t).cursors = st.cursors ∧
    (Fetcher.insertAlchemyTransfer chain st t).errors = st.errors := by
  unfold Fetcher.insertAlchemyTransfer
  split
  · exact ⟨rfl, rfl⟩
  · exact ⟨rfl, rfl⟩

/-- Helper: the EVM insert loop never touches the cursor table or the
error list. -/
theorem insertAlchemyPage_cursors (chain : String) (st : Fetcher.ScanSt)
    (ts : List Fetcher.ATransfer) :
    (Fetcher.insertAlchemyPage chain st ts).cursors = st.cursors ∧
    (Fetcher.insertAlchemyPage chain st ts).errors = st.errors := by
  induction ts generalizing st with
  | nil => exact ⟨rfl, rfl⟩
  | cons t ts ih =>
    have h1 := insertAlchemyTransfer_cursors chain st t
    have h2 := ih (Fetcher.insertAlchemyTransfer chain st t)
    exact ⟨h2.1.trans h1.1, h2.2.trans h1.2⟩

/-- Helper: reading back the row just upserted yields the written
value. -/
theorem getScanState_upsert (t : Fetcher.CursorTable) (a : Nat) (c : String)
    (v : Nat) :
    Fetcher.getScanState (Fetcher.upsertScanState t a c v) a c = some v := by
  induction t with
  | nil => simp [Fetcher.upsertScanState, Fetcher.getScanState]
  | cons e rest ih =>
    unfold Fetcher.upsertScanState
    by_cases he : e.1.1 = a ∧ e.1.2 = c
    · rw [if_pos he]
      simp [Fetcher.getScanState]
    · rw [if_neg he]
      unfold Fetcher.getScanState at ih ⊢
      rw [List.find?_cons_of_neg]
      · exact ih
      · simpa using he

/-- Claim C8 counterexample. A Solana (address, chain) unit with stored
cursor 5: the unit completes without error, yet the cursor written on
completion is 0 < 5 — the Solana path never reads the stored cursor,
tracks no block maximum, and always writes `last_block: 0`, refuting the
universally-quantified claim. -/
theorem solana_cursor_written_below_stored :
    Fetcher.getScanState Fixtures.scanStSolCursor5.cursors 1 "solana" = some 5 ∧
    Fetcher.getScanState
        (Fetcher.scanSolanaUnit Fixtures.fmtFix Fixtures.scanStSolCursor5
          Fixtures.solUnitFix).cursors 1 "solana" = some 0 ∧
    (Fetcher.scanSolanaUnit Fixtures.fmtFix Fixtures.scanStSolCursor5
        Fixtures.solUnitFix).errors = [] ∧
    (0 : Nat) < 5 :=
  ⟨rfl, rfl, rfl, by decide⟩

/-- Claim C8, amended. For every *EVM* (address, chain) unit the claim
holds as stated: the scan reads the stored cursor (default 0 when
absent) as the resume point, tracks the running maximum block number
observed across all fetched pages of both directions, and the cursor
written on completion of the unit is that running maximum — in
particular never less than the previously stored value.  Solana units,
by contrast, never read the stored cursor and always write
`last_block: 0` on completion; their cursor is non-decreasing only
because this scan is the only writer and never stores a nonzero value
for them. -/
theorem scan_cursor_monotonic (chain : String) (st : Fetcher.ScanSt)
    (u : Fetcher.EvmUnit) (r1 r2 : Fetcher.FetchOut) (fmt : Fetcher.JsFmt)
    (stS : Fetcher.ScanSt) (su : Fetcher.SolUnit) (txs : List Fetcher.HeliusTx)
    (h1 : Fetcher.fetchAlchemyTransfers u.scriptFrom u.address "from"
      ((Fetcher.getScanState st.cursors u.addrId chain).getD 0) = .ok r1)
    (h2 : Fetcher.fetchAlchemyTransfers u.scriptTo u.address "to"
      ((Fetcher.getScanState st.cursors u.addrId chain).getD 0) = .ok r2)
    (hs : Fetcher.fetchHeliusTransactions su.script = .ok txs) :
    Fetcher.getScanState (Fetcher.scanEvmUnit chain st u).cursors u.addrId chain =
      some ((r1.transfers ++ r2.transfers).foldl Fetcher.updMax
        ((Fetcher.getScanState st.cursors u.addrId chain).getD 0)) ∧
    (Fetcher.getScanState st.cursors u.addrId chain).getD 0 ≤
      (r1.transfers ++ r2.transfers).foldl Fetcher.updMax
        ((Fetcher.getScanState st.cursors u.addrId chain).getD 0) ∧
    Fetcher.getScanState
        (Fetcher.scanSolanaUnit fmt stS su).cursors su.addrId "solana" = some 0 := by
  refine ⟨?_, foldl_updMax_ge _ _, ?_⟩
  · have e1 := fetchAlchemyTransfers_maxBlock _ _ _ _ _ h1
    have e2 := fetchAlchemyTransfers_maxBlock _ _ _ _ _ h2
    unfold Fetcher.scanEvmUnit
    dsimp only
    rw [h1]
    dsimp only
    rw [h2]
    dsimp only
    rw [(insertAlchemyPage_cursors chain _ r2.transfers).1,
      (insertAlchemyPage_cursors chain st r1.transfers).1,
      getScanState_upsert]
    congr 1
    rw [e1, e2]
    have hA := foldl_updMax_ge r1.transfers
      ((Fetcher.getScanState st.cursors u.addrId chain).getD 0)
    rw [List.foldl_append,
      foldl_updMax_shift r2.transfers
        (r1.transfers.foldl Fetcher.updMax
          ((Fetcher.getScanState st.cursors u.addrId chain).getD 0)),
      foldl_updMax_shift r2.transfers
        ((Fetcher.getScanState st.cursors u.addrId chain).getD 0)]
    rw [Nat.max_def, Nat.max_def]
    split_ifs <;> omega
  · unfold Fetcher.scanSolanaUnit
    dsimp only
    rw [hs]
    dsimp only
    rw [getScanState_upsert]

/-- Witness for C8 (amended): an EVM unit with stored cursor 5 whose
fetches return no new transfers keeps the cursor at 5, and a Solana unit
writes 0. -/
theorem scan_cursor_monotonic_witness :
    Fetcher.getScanState
        (Fetcher.scanEvmUnit "ethereum" Fixtures.scanStCursor5
          Fixtures.evmUnitOk1).cursors 1 "ethereum" = some 5 ∧
    Fetcher.getScanState
        (Fetcher.scanSolanaUnit Fixtures.fmtFix Fixtures.scanSt0
          Fixtures.solUnitFix).cursors 1 "solana" = some 0 := by
  have h := scan_cursor_monotonic "ethereum" Fixtures.scanStCursor5
    Fixtures.evmUnitOk1 ⟨[], 5, [150]⟩ ⟨[], 5, [150]⟩ Fixtures.fmtFix
    Fixtures.scanSt0 Fixtures.solUnitFix [] rfl rfl rfl
  exact ⟨h.1, h.2.2⟩

namespace Connections

/-- Helper: an insert either leaves the table unchanged (duplicate) or
appends exactly the canonicalized row. -/
theorem insertConnection_append (cs : List Conn) (x y : Nat) (tp : String)
    (ev : Evidence) :
    insertConnection cs x y tp ev = cs ∨
      insertConnection cs x y tp ev = cs ++ [⟨min x y, max x y, tp, ev⟩] := by
  unfold insertConnection
  dsimp only
  split
  · exact Or.inl rfl
  · exact Or.inr rfl

/-- Helper: after an insert the canonicalized row is present. -/
theorem insertConnection_mem (cs : List Conn) (x y : Nat) (tp : String)
    (ev : Evidence) :
    (⟨min x y, max x y, tp, ev⟩ : Conn) ∈ insertConnection cs x y tp ev := by
  unfold insertConnection
  dsimp only
  split
  · next h => exact List.mem_of_elem_eq_true h
  · simp

/-- Helper: inserts preserve membership. -/
theorem insertConnection_mem_of_mem (cs : List Conn) (x y : Nat) (tp : String)
    (ev : Evidence) (c : Conn) (h : c ∈ cs) :
    c ∈ insertConnection cs x y tp ev := by
  rcases insertConnection_append cs x y tp ev with he | he <;> rw [he]
  · exact h
  · exact List.mem_append_left _ h

/-- Helper: inserts preserve duplicate-freedom of the table. -/
theorem insertConnection_nodup (cs : List Conn) (x y : Nat) (tp : String)
    (ev : Evidence) (h : cs.Nodup) :
    (insertConnection cs x y tp ev).Nodup := by
  unfold insertConnection
  dsimp only
  split
  · exact h
  · next hc =>
    refine List.Nodup.append h (List.nodup_singleton _) ?_
    intro a ha hb
    rw [List.mem_singleton] at hb
    subst hb
    exact hc (List.elem_eq_true_of_mem ha)

/-- Helper: every index-ordered pair of a duplicate-free list has
distinct components drawn from the list. -/
theorem pairsOf_mem (K : List Nat) (hK : K.Nodup) (p : Nat × Nat)
    (hp : p ∈ pairsOf K) : p.1 ∈ K ∧ p.2 ∈ K ∧ p.1 ≠ p.2 := by
  induction K with
  | nil => simp [pairsOf] at hp
  | cons x xs ih =>
    rw [List.nodup_cons] at hK
    unfold pairsOf at hp
    rcases List.mem_append.mp hp with hp1 | hp1
    · obtain ⟨y, hy, rfl⟩ := List.mem_map.mp hp1
      refine ⟨by simp, by simp [hy], ?_⟩
      intro hxy
      have hxy' : x = y := hxy
      exact hK.1 (hxy' ▸ hy)
    · obtain ⟨h1, h2, h3⟩ := ih hK.2 hp1
      exact ⟨by simp [h1], by simp [h2], h3⟩

/-- Helper: every unordered pair of distinct members is covered by some
index-ordered pair. -/
theorem pairsOf_covers (K : List Nat) (a b : Nat) (ha : a ∈ K) (hb : b ∈ K)
    (hab : a ≠ b) :
    ∃ p ∈ pairsOf K, min p.1 p.2 = min a b ∧ max p.1 p.2 = max a b := by
  induction K with
  | nil => simp at ha
  | cons x xs ih =>
    rcases List.mem_cons.mp ha with rfl | ha'
    · have hbxs : b ∈ xs := by
        rcases List.mem_cons.mp hb with rfl | hb'
        · exact absurd rfl hab
        · exact hb'
      refine ⟨(a, b), ?_, rfl, rfl⟩
      unfold pairsOf
      exact List.mem_append_left _ (List.mem_map.mpr ⟨b, hbxs, rfl⟩)
    · rcases List.mem_cons.mp hb with rfl | hb'
      · refine ⟨(b, a), ?_, ?_, ?_⟩
        · unfold pairsOf
          exact List.mem_append_left _ (List.mem_map.mpr ⟨a, ha', rfl⟩)
        · exact Nat.min_comm b a
        · exact Nat.max_comm b a
      · obtain ⟨p, hp, h1, h2⟩ := ih ha' hb'
        refine ⟨p, ?_, h1, h2⟩
        unfold pairsOf
        exact List.mem_append_right _ hp

end Connections

namespace Connections

/-- Helper: `setAdd` keeps fan-out sets duplicate-free. -/
theorem setAdd_nodup (s : List Nat) (x : Nat) (h : s.Nodup) :
    (setAdd s x).Nodup := by
  unfold setAdd
  split
  · exact h
  · next hc =>
    refine List.Nodup.append h (List.nodup_singleton _) ?_
    intro a ha hb
    rw [List.mem_singleton] at hb
    subst hb
    exact hc (List.elem_eq_true_of_mem ha)

/-- Helper: an entry of `cmapAdd m k x` is an entry of `m`, possibly
updated in its set, or the fresh entry for `k`. -/
theorem cmapAdd_keys (m : List (String × List Nat)) (k : String) (x : Nat)
    (q : String × List Nat) (hq : q ∈ cmapAdd m k x) :
    q.1 ∈ m.map (·.1) ∨ q.1 = k := by
  induction m with
  | nil =>
    unfold cmapAdd at hq
    rw [List.mem_singleton] at hq
    exact Or.inr (by rw [hq])
  | cons f fs ihf =>
    unfold cmapAdd at hq
    by_cases hf : f.1 = k
    · rw [if_pos hf] at hq
      rcases List.mem_cons.mp hq with rfl | hq'
      · exact Or.inr rfl
      · exact Or.inl (List.mem_map.mpr ⟨q, List.mem_cons_of_mem f hq', rfl⟩)
    · rw [if_neg hf] at hq
      rcases List.mem_cons.mp hq with rfl | hq'
      · exact Or.inl (by simp)
      · rcases ihf hq' with h' | h'
        · exact Or.inl (by simp [h'])
        · exact Or.inr h'

/-- Helper: `cmapAdd` preserves counterparty-map well-formedness. -/
theorem cmapAdd_wf (m : List (String × List Nat)) (k : String) (x : Nat)
    (h : CMapWF m) : CMapWF (cmapAdd m k x) := by
  induction m with
  | nil =>
    refine ⟨List.nodup_singleton _, ?_⟩
    intro p hp
    unfold cmapAdd at hp
    rw [List.mem_singleton] at hp
    subst hp
    exact List.nodup_singleton _
  | cons e rest ih =>
    obtain ⟨hkeys, hvals⟩ := h
    rw [List.map_cons, List.nodup_cons] at hkeys
    unfold cmapAdd
    by_cases hk : e.1 = k
    · rw [if_pos hk]
      constructor
      · rw [List.map_cons, List.nodup_cons]
        exact ⟨by simpa [← hk] using hkeys.1, hkeys.2⟩
      · intro p hp
        rcases List.mem_cons.mp hp with rfl | hp'
        · exact setAdd_nodup _ _ (hvals e (by simp))
        · exact hvals p (by simp [hp'])
    · rw [if_neg hk]
      obtain ⟨ih1, ih2⟩ := ih ⟨hkeys.2, fun p hp => hvals p (by simp [hp])⟩
      constructor
      · rw [List.map_cons, List.nodup_cons]
        refine ⟨?_, ih1⟩
        intro hmem
        obtain ⟨q, hq, hq1⟩ := List.mem_map.mp hmem
        rcases cmapAdd_keys rest k x q hq with h' | h'
        · exact hkeys.1 (hq1 ▸ h')
        · exact hk (hq1 ▸ h')
      · intro p hp
        rcases List.mem_cons.mp hp with rfl | hp'
        · exact hvals e (by simp)
        · exact ih2 p hp'

/-- Helper: one step of the counterparty-map build preserves
well-formedness. -/
theorem counterpartyStep_wf (amap : List (String × Nat))
    (m : List (String × List Nat)) (t : Transfer) (h : CMapWF m) :
    CMapWF (counterpartyStep amap m t) := by
  unfold counterpartyStep
  dsimp only
  split
  · split
    · exact cmapAdd_wf _ _ _ (cmapAdd_wf _ _ _ h)
    · exact cmapAdd_wf _ _ _ h
  · split
    · exact cmapAdd_wf _ _ _ h
    · exact h

/-- Helper: the counterparty map is well-formed. -/
theorem counterpartyMap_wf (amap : List (String × Nat))
    (transfers : List Transfer) : CMapWF (counterpartyMap amap transfers) := by
  unfold counterpartyMap
  generalize hm : ([] : List (String × List Nat)) = m0
  have h0 : CMapWF m0 := by
    rw [← hm]
    exact ⟨List.nodup_nil, by simp⟩
  clear hm
  induction transfers generalizing m0 with
  | nil => exact h0
  | cons t ts ih =>
    rw [List.foldl_cons]
    exact ih _ (counterpartyStep_wf amap m0 t h0)

/-- Helper: in a well-formed map, membership determines the lookup. -/
theorem cmapGet_unique (m : List (String × List Nat)) (e : String)
    (K : List Nat) (hwf : CMapWF m) (hm : (e, K) ∈ m) : cmapGet m e = some K := by
  induction m with
  | nil => simp at hm
  | cons f rest ih =>
    obtain ⟨hkeys, hvals⟩ := hwf
    rw [List.map_cons, List.nodup_cons] at hkeys
    rcases List.mem_cons.mp hm with rfl | hm'
    · unfold cmapGet
      rw [List.find?_cons_of_pos]
      · rfl
      · simp
    · unfold cmapGet
      rw [List.find?_cons_of_neg]
      · exact ih ⟨hkeys.2, fun p hp => hvals p (by simp [hp])⟩ hm'
      · simp only [decide_eq_true_eq]
        intro hf
        exact hkeys.1 (hf ▸ List.mem_map.mpr ⟨(e, K), hm', rfl⟩)

end Connections

namespace Connections

/-- Helper: the pair-insert loop of one counterparty entry only appends,
and appends only canonicalized indirect rows for its pairs. -/
theorem pairsFold_append (e : String) (pl : List (Nat × Nat)) (cs : List Conn) :
    ∃ ex, pl.foldl
        (fun cs p => insertConnection cs p.1 p.2 "indirect" (.shared e)) cs =
      cs ++ ex ∧ ∀ c ∈ ex, ∃ p ∈ pl, c = indirectRow e p := by
  induction pl generalizing cs with
  | nil => exact ⟨[], by simp, by simp⟩
  | cons p pl ih =>
    rw [List.foldl_cons]
    rcases insertConnection_append cs p.1 p.2 "indirect" (.shared e) with he | he
    · obtain ⟨ex, hex, hall⟩ := ih (insertConnection cs p.1 p.2 "indirect" (.shared e))
      refine ⟨ex, by rw [hex, he], ?_⟩
      intro c hc
      obtain ⟨q, hq, hcq⟩ := hall c hc
      exact ⟨q, List.mem_cons_of_mem _ hq, hcq⟩
    · obtain ⟨ex, hex, hall⟩ := ih (insertConnection cs p.1 p.2 "indirect" (.shared e))
      refine ⟨⟨min p.1 p.2, max p.1 p.2, "indirect", .shared e⟩ :: ex, ?_, ?_⟩
      · rw [hex, he, List.append_assoc]
        rfl
      · intro c hc
        rcases List.mem_cons.mp hc with rfl | hc'
        · exact ⟨p, List.mem_cons_self _ _, rfl⟩
        · obtain ⟨q, hq, hcq⟩ := hall c hc'
          exact ⟨q, List.mem_cons_of_mem _ hq, hcq⟩

/-- Helper: one counterparty entry only appends, and only when its
fan-out lies in `[2, MAX_FANOUT]`; every appended row is a canonical
indirect row for one of its pairs. -/
theorem emitIndirect_append (cs : List Conn) (entry : String × List Nat) :
    ∃ ex, emitIndirect cs entry = cs ++ ex ∧ ∀ c ∈ ex,
      (2 ≤ entry.2.length ∧ entry.2.length ≤ MAX_FANOUT) ∧
      ∃ p ∈ pairsOf entry.2, c = indirectRow entry.1 p := by
  unfold emitIndirect
  split
  · exact ⟨[], by simp, by simp⟩
  · next hg =>
    obtain ⟨ex, hex, hall⟩ := pairsFold_append entry.1 (pairsOf entry.2) cs
    refine ⟨ex, hex, ?_⟩
    intro c hc
    exact ⟨by omega, hall c hc⟩

/-- Helper: the whole indirect pass only appends; every appended row is
a canonical indirect row of some counterparty entry within the fan-out
bounds. -/
theorem cmapFold_append (m : List (String × List Nat)) (cs : List Conn) :
    ∃ ex, m.foldl emitIndirect cs = cs ++ ex ∧ ∀ c ∈ ex, ∃ entry ∈ m,
      (2 ≤ entry.2.length ∧ entry.2.length ≤ MAX_FANOUT) ∧
      ∃ p ∈ pairsOf entry.2, c = indirectRow entry.1 p := by
  induction m generalizing cs with
  | nil => exact ⟨[], by simp, by simp⟩
  | cons entry rest ih =>
    rw [List.foldl_cons]
    obtain ⟨ex1, hex1, hall1⟩ := emitIndirect_append cs entry
    obtain ⟨ex2, hex2, hall2⟩ := ih (emitIndirect cs entry)
    refine ⟨ex1 ++ ex2, ?_, ?_⟩
    · rw [hex2, hex1, List.append_assoc]
    intro c hc
    rcases List.mem_append.mp hc with hc' | hc'
    · obtain ⟨hg, hp⟩ := hall1 c hc'
      exact ⟨entry, List.mem_cons_self _ _, hg, hp⟩
    · obtain ⟨q, hq, hcq⟩ := hall2 c hc'
      exact ⟨q, List.mem_cons_of_mem _ hq, hcq⟩

/-- Helper: the indirect pass preserves membership. -/
theorem cmapFold_mem (m : List (String × List Nat)) (cs : List Conn) (c : Conn)
    (h : c ∈ cs) : c ∈ m.foldl emitIndirect cs := by
  obtain ⟨ex, hex, _⟩ := cmapFold_append m cs
  rw [hex]
  exact List.mem_append_left _ h

/-- Helper: the pair-insert loop preserves membership. -/
theorem pairsFold_mem (e : String) (pl : List (Nat × Nat)) (cs : List Conn)
    (c : Conn) (h : c ∈ cs) :
    c ∈ pl.foldl
      (fun cs p => insertConnection cs p.1 p.2 "indirect" (.shared e)) cs := by
  obtain ⟨ex, hex, _⟩ := pairsFold_append e pl cs
  rw [hex]
  exact List.mem_append_left _ h

/-- Helper: the indirect row of a covered pair of an in-bounds
counterparty entry is present after the indirect pass. -/
theorem indirectRow_mem_final (m : List (String × List Nat)) (cs : List Conn)
    (e : String) (K : List Nat) (p : Nat × Nat) (hm : (e, K) ∈ m)
    (hg : ¬(K.length < 2 ∨ K.length > MAX_FANOUT)) (hp : p ∈ pairsOf K) :
    indirectRow e p ∈ m.foldl emitIndirect cs := by
  obtain ⟨l1, l2, rfl⟩ := List.append_of_mem hm
  rw [List.foldl_append, List.foldl_cons]
  have hstep : indirectRow e p ∈ emitIndirect (l1.foldl emitIndirect cs) (e, K) := by
    unfold emitIndirect
    rw [if_neg hg]
    obtain ⟨q1, q2, heq⟩ := List.append_of_mem hp
    rw [heq, List.foldl_append, List.foldl_cons]
    refine pairsFold_mem e q2 _ _ ?_
    exact insertConnection_mem _ p.1 p.2 "indirect" (.shared e)
  exact cmapFold_mem l2 _ _ hstep

end Connections

namespace Connections

/-- Helper: a transfer with no canonical known pair leaves the direct
pass untouched. -/
theorem directStep_of_canon_none (amap : List (String × Nat)) (st : DirectSt)
    (t : Transfer) (h : canonKey amap t = none) :
    directStep amap st t = st := by
  unfold canonKey at h
  unfold directStep
  cases hF : mapGet amap (normalizeAddress t.from_address) with
  | none => rfl
  | some f =>
    cases hG : mapGet amap (normalizeAddress t.to_address) with
    | none => rfl
    | some g =>
      rw [hF, hG] at h
      dsimp only at h
      dsimp only
      by_cases hfg : f ≠ g
      · rw [if_pos hfg] at h
        simp at h
      · rw [if_neg hfg]

/-- Helper: the direct pass keeps the connection table duplicate-free. -/
theorem directStep_nodup (amap : List (String × Nat)) (st : DirectSt)
    (t : Transfer) (h : st.conns.Nodup) :
    (directStep amap st t).conns.Nodup := by
  unfold directStep
  cases mapGet amap (normalizeAddress t.from_address) with
  | none => exact h
  | some f =>
    cases mapGet amap (normalizeAddress t.to_address) with
    | none => exact h
    | some g =>
      dsimp only
      split
      · split
        · exact h
        · exact insertConnection_nodup _ _ _ _ _ h
      · exact h

theorem directFold_nodup (amap : List (String × Nat)) (ts : List Transfer)
    (st : DirectSt) (h : st.conns.Nodup) :
    (ts.foldl (directStep amap) st).conns.Nodup := by
  induction ts generalizing st with
  | nil => exact h
  | cons t ts ih => exact ih _ (directStep_nodup amap st t h)

theorem pairsFold_nodup (e : String) (pl : List (Nat × Nat)) (cs : List Conn)
    (h : cs.Nodup) :
    (pl.foldl (fun cs p => insertConnection cs p.1 p.2 "indirect" (.shared e))
      cs).Nodup := by
  induction pl generalizing cs with
  | nil => exact h
  | cons p pl ih => exact ih _ (insertConnection_nodup _ _ _ _ _ h)

theorem emitIndirect_nodup (cs : List Conn) (entry : String × List Nat)
    (h : cs.Nodup) : (emitIndirect cs entry).Nodup := by
  unfold emitIndirect
  split
  · exact h
  · exact pairsFold_nodup _ _ _ h

theorem cmapFold_nodup (m : List (String × List Nat)) (cs : List Conn)
    (h : cs.Nodup) : (m.foldl emitIndirect cs).Nodup := by
  induction m generalizing cs with
  | nil => exact h
  | cons entry rest ih => exact ih _ (emitIndirect_nodup cs entry h)

/-- Helper: the rebuilt connection table is duplicate-free. -/
theorem detectConnections_nodup (rows : List AddressRow)
    (transfers : List Transfer) : (detectConnections rows transfers).Nodup := by
  unfold detectConnections
  exact cmapFold_nodup _ _
    (directFold_nodup _ transfers ⟨[], []⟩ List.nodup_nil)

end Connections

namespace Connections

/-- Helper: one step of the direct pass preserves the loop invariant. -/
theorem directStep_inv (amap : List (String × Nat)) (done : List Transfer)
    (st : DirectSt) (t : Transfer) (h : DirectInv amap done st) :
    DirectInv amap (done ++ [t]) (directStep amap st t) := by
  obtain ⟨hpairs, hcount, hrows⟩ := h
  cases hck : canonKey amap t with
  | none =>
    have hfor : ∀ k : Nat × Nat, isTransferFor amap k t = false := by
      intro k
      unfold isTransferFor
      rw [hck]
      simp
    rw [directStep_of_canon_none amap st t hck]
    refine ⟨?_, ?_, ?_⟩
    · intro k
      rw [hpairs k, List.any_append]
      simp [hfor k]
    · intro k
      simp only [List.any_append, List.any_cons, List.any_nil, hfor k,
        Bool.or_false]
      exact hcount k
    · intro c hc
      obtain ⟨h1, h2, tt, h3, h4⟩ := hrows c hc
      refine ⟨h1, h2, tt, ?_, h4⟩
      rw [List.find?_append, h3]
      rfl
  | some k0 =>
    have hfor : ∀ k : Nat × Nat, isTransferFor amap k t = decide (k = k0) := by
      intro k
      unfold isTransferFor
      exact decide_eq_decide.mpr (by
        rw [hck]
        exact ⟨fun h' => (Option.some.inj h').symm, fun h' => by rw [h']⟩)
    unfold canonKey at hck
    cases hF : mapGet amap (normalizeAddress t.from_address) with
    | none =>
      rw [hF] at hck
      simp at hck
    | some f =>
      cases hG : mapGet amap (normalizeAddress t.to_address) with
      | none =>
        rw [hF, hG] at hck
        simp at hck
      | some g =>
        rw [hF, hG] at hck
        dsimp only at hck
        by_cases hfg : f ≠ g
        · rw [if_pos hfg] at hck
          have hk0 : k0 = (min f g, max f g) := (Option.some.inj hck).symm
          subst hk0
          have hstep : directStep amap st t =
              if st.pairs.contains (min f g, max f g) = true then st
              else ⟨st.pairs ++ [(min f g, max f g)],
                insertConnection st.conns f g "direct" (evidenceOf t)⟩ := by
            unfold directStep
            rw [hF, hG]
            dsimp only
            rw [if_pos hfg]
            rfl
          rw [hstep]
          by_cases hmem : (min f g, max f g) ∈ st.pairs
          · rw [if_pos (List.elem_eq_true_of_mem hmem)]
            have hanyk0 : done.any (isTransferFor amap (min f g, max f g))
                = true := (hpairs _).mp hmem
            refine ⟨?_, ?_, ?_⟩
            · intro k
              simp only [List.any_append, List.any_cons, List.any_nil,
                hfor k, Bool.or_false, Bool.or_eq_true, decide_eq_true_eq]
              constructor
              · intro hk
                exact Or.inl ((hpairs k).mp hk)
              · rintro (hk | hk)
                · exact (hpairs k).mpr hk
                · rw [hk]
                  exact hmem
            · intro k
              simp only [List.any_append, List.any_cons, List.any_nil,
                hfor k, Bool.or_false]
              by_cases hk : k = (min f g, max f g)
              · subst hk
                rw [hanyk0]
                have h2 := hcount (min f g, max f g)
                rw [hanyk0] at h2
                simpa using h2
              · have hd : decide (k = (min f g, max f g)) = false :=
                  decide_eq_false hk
                simp only [hd, Bool.or_false]
                exact hcount k
            · intro c hc
              obtain ⟨h1, h2, tt, h3, h4⟩ := hrows c hc
              refine ⟨h1, h2, tt, ?_, h4⟩
              rw [List.find?_append, h3]
              rfl
          · have hmemc : ¬ st.pairs.contains (min f g, max f g) = true :=
              fun hc => hmem (List.mem_of_elem_eq_true hc)
            rw [if_neg hmemc]
            have hany0 : done.any (isTransferFor amap (min f g, max f g))
                = false := by
              cases hA : done.any (isTransferFor amap (min f g, max f g)) with
              | false => rfl
              | true => exact absurd ((hpairs _).mpr hA) hmem
            have hcount0 : (st.conns.filter
                (directRowFor (min f g, max f g))).length = 0 := by
              have := hcount (min f g, max f g)
              rw [hany0] at this
              simpa using this
            have hr0 : (⟨min f g, max f g, "direct", evidenceOf t⟩ : Conn)
                ∉ st.conns := by
              intro hmem'
              have hpred : directRowFor (min f g, max f g)
                  ⟨min f g, max f g, "direct", evidenceOf t⟩ = true := by
                unfold directRowFor
                simp
              have hin : (⟨min f g, max f g, "direct", evidenceOf t⟩ : Conn)
                  ∈ st.conns.filter (directRowFor (min f g, max f g)) :=
                List.mem_filter.mpr ⟨hmem', hpred⟩
              rw [List.length_eq_zero] at hcount0
              rw [hcount0] at hin
              simp at hin
            have hins : insertConnection st.conns f g "direct" (evidenceOf t)
                = st.conns ++ [⟨min f g, max f g, "direct", evidenceOf t⟩] := by
              unfold insertConnection
              dsimp only
              rw [if_neg]
              intro hcont
              exact hr0 (List.mem_of_elem_eq_true hcont)
            rw [hins]
            refine ⟨?_, ?_, ?_⟩
            · intro k
              simp only [List.mem_append, List.mem_singleton, List.any_append,
                List.any_cons, List.any_nil, hfor k, Bool.or_false,
                Bool.or_eq_true, decide_eq_true_eq]
              constructor
              · rintro (hk | hk)
                · exact Or.inl ((hpairs k).mp hk)
                · exact Or.inr hk
              · rintro (hk | hk)
                · exact Or.inl ((hpairs k).mpr hk)
                · exact Or.inr hk
            · intro k
              rw [List.filter_append, List.length_append]
              simp only [List.any_append, List.any_cons, List.any_nil,
                hfor k, Bool.or_false]
              by_cases hk : k = (min f g, max f g)
              · subst hk
                have hpred : directRowFor (min f g, max f g)
                    ⟨min f g, max f g, "direct", evidenceOf t⟩ = true := by
                  unfold directRowFor
                  simp
                rw [hany0, hcount0]
                simp [List.filter, hpred]
              · have hpred : directRowFor k
                    ⟨min f g, max f g, "direct", evidenceOf t⟩ = false := by
                  unfold directRowFor
                  simp only [decide_eq_false_iff_not]
                  rintro ⟨-, h2, h3⟩
                  exact hk (by rw [Prod.ext_iff]; exact ⟨h2.symm, h3.symm⟩)
                have hd : decide (k = (min f g, max f g)) = false :=
                  decide_eq_false hk
                simp only [hd, Bool.or_false, List.filter, hpred]
                simpa using hcount k
            · intro c hc
              rcases List.mem_append.mp hc with hc' | hc'
              · obtain ⟨h1, h2, tt, h3, h4⟩ := hrows c hc'
                refine ⟨h1, h2, tt, ?_, h4⟩
                rw [List.find?_append, h3]
                rfl
              · rw [List.mem_singleton] at hc'
                subst hc'
                refine ⟨rfl, min_lt_max.mpr hfg, t, ?_, rfl⟩
                rw [List.find?_append]
                have hnone : done.find?
                    (isTransferFor amap (min f g, max f g)) = none := by
                  rw [List.find?_eq_none]
                  intro x hx hpx
                  have := List.any_eq_false.mp hany0 x hx
                  exact this hpx
                rw [hnone]
                show List.find? (isTransferFor amap (min f g, max f g)) [t]
                  = some t
                rw [List.find?_cons_of_pos]
                rw [hfor]
                simp
        · rw [if_neg hfg] at hck
          simp at hck

end Connections

namespace Connections

/-- Helper: the direct-pass fold preserves the loop invariant. -/
theorem directFold_inv (amap : List (String × Nat)) (ts : List Transfer)
    (done : List Transfer) (st : DirectSt) (h : DirectInv amap done st) :
    DirectInv amap (done ++ ts) (ts.foldl (directStep amap) st) := by
  induction ts generalizing done st with
  | nil => simpa using h
  | cons t ts ih =>
    rw [List.foldl_cons]
    have h' := ih (done ++ [t]) (directStep amap st t)
      (directStep_inv amap done st t h)
    rwa [List.append_assoc, List.singleton_append] at h'

/-- Helper: the invariant holds at the start of the direct pass. -/
theorem directInv_init (amap : List (String × Nat)) :
    DirectInv amap [] ⟨[], []⟩ := by
  refine ⟨?_, ?_, ?_⟩
  · intro k
    simp
  · intro k
    simp
  · intro c hc
    simp at hc

/-- Helper: the invariant of the completed direct pass. -/
theorem directPass_inv (amap : List (String × Nat)) (transfers : List Transfer) :
    DirectInv amap transfers (transfers.foldl (directStep amap) ⟨[], []⟩) := by
  have h := directFold_inv amap transfers [] ⟨[], []⟩ (directInv_init amap)
  simpa using h

end Connections

/-- Claim C5. In the connection detector's direct pass, for every
unordered pair of distinct known addresses (endpoints normalized by
lower-casing 0x-hex addresses) with at least one transfer between them,
exactly one direct connection row is produced — and none for pairs
without such a transfer; every direct row is stored in canonical order
(smaller address id first) and carries the evidence of the *first*
matching transfer, so subsequent transfers between the same pair create
no additional rows. -/
theorem detect_direct_unique (rows : List Connections.AddressRow)
    (transfers : List Connections.Transfer) (k : Nat × Nat) :
    ((Connections.detectConnections rows transfers).filter
        (Connections.directRowFor k)).length =
      (if transfers.any (Connections.isTransferFor
          (Connections.buildAddressMap rows) k) = true then 1 else 0) ∧
    (∀ c ∈ Connections.detectConnections rows transfers,
      Connections.directRowFor k c = true →
        c.address_id_1 < c.address_id_2 ∧
        ∃ t, transfers.find? (Connections.isTransferFor
            (Connections.buildAddressMap rows) (c.address_id_1, c.address_id_2))
          = some t ∧ c.evidence = Connections.evidenceOf t) := by
  obtain ⟨hpairs, hcount, hrows⟩ :=
    Connections.directPass_inv (Connections.buildAddressMap rows) transfers
  unfold Connections.detectConnections
  dsimp only
  obtain ⟨ex, hex, hall⟩ := Connections.cmapFold_append
    (Connections.counterpartyMap (Connections.buildAddressMap rows) transfers)
    ((transfers.foldl (Connections.directStep
      (Connections.buildAddressMap rows)) ⟨[], []⟩).conns)
  rw [hex]
  constructor
  · rw [List.filter_append, List.length_append]
    have hexf : ex.filter (Connections.directRowFor k) = [] := by
      rw [List.filter_eq_nil_iff]
      intro c hc
      obtain ⟨entry, -, -, p, -, rfl⟩ := hall c hc
      unfold Connections.indirectRow Connections.directRowFor
      simp
    rw [hexf]
    simpa using hcount k
  · intro c hc hck
    rcases List.mem_append.mp hc with hc' | hc'
    · obtain ⟨-, h2, tt, h3, h4⟩ := hrows c hc'
      exact ⟨h2, tt, h3, h4⟩
    · obtain ⟨entry, -, -, p, -, rfl⟩ := hall c hc'
      unfold Connections.indirectRow Connections.directRowFor at hck
      simp at hck

namespace Connections

/-- Helper: a successful lookup comes from a map entry. -/
theorem cmapGet_mem (m : List (String × List Nat)) (e : String) (K : List Nat)
    (h : cmapGet m e = some K) : (e, K) ∈ m := by
  unfold cmapGet at h
  obtain ⟨p, hp, hp2⟩ := Option.map_eq_some'.mp h
  have hmem := List.mem_of_find?_eq_some hp
  have hpred := List.find?_some hp
  simp only [decide_eq_true_eq] at hpred
  have : (e, K) = p := by
    rw [← hpred, ← hp2]
  rw [this]
  exact hmem

end Connections

/-- Claim C5 witness: on a concrete address set and transfer list, the
known pair (Alice=1, Bob=2) with two transfers between them yields
exactly one direct row, canonical, with the first transfer's evidence. -/
theorem detect_direct_unique_witness :
    ((Connections.detectConnections Fixtures.rowsFix
        Fixtures.transfersFix).filter (Connections.directRowFor (1, 2))).length
      = 1 ∧
    (1 : Nat) < 2 ∧
    ∃ t, Fixtures.transfersFix.find? (Connections.isTransferFor
        (Connections.buildAddressMap Fixtures.rowsFix) (1, 2)) = some t ∧
      (Connections.Evidence.direct "c" "T" "h1") = Connections.evidenceOf t := by
  refine ⟨?_, ?_⟩
  · exact ((detect_direct_unique Fixtures.rowsFix Fixtures.transfersFix
      (1, 2)).1).trans (by decide)
  · exact (detect_direct_unique Fixtures.rowsFix Fixtures.transfersFix (1, 2)).2
      ⟨1, 2, "direct", .direct "c" "T" "h1"⟩ (by decide) (by decide)

/-- Claim C4. In the connection detector's indirect pass, for every
external counterparty address `e` whose fan-out (count of distinct known
addresses it has transacted with) lies between 2 and the ceiling
`MAX_FANOUT = 10` inclusive, exactly one indirect connection is emitted
for every unordered pair among those known addresses, carrying `e` as
evidence; for fan-out above the ceiling or below 2, no connection with
evidence `e` is created at all; and every connection evidenced by `e`
is an indirect one joining two distinct members of `e`'s fan-out set,
in canonical order. -/
theorem detect_indirect_fanout (rows : List Connections.AddressRow)
    (transfers : List Connections.Transfer) (e : String) (a b : Nat) :
    (a ∈ Connections.fanoutOf rows transfers e →
      b ∈ Connections.fanoutOf rows transfers e → a ≠ b →
      2 ≤ (Connections.fanoutOf rows transfers e).length →
      (Connections.fanoutOf rows transfers e).length ≤ Connections.MAX_FANOUT →
      (Connections.detectConnections rows transfers).count
        ⟨min a b, max a b, "indirect", .shared e⟩ = 1) ∧
    ((Connections.fanoutOf rows transfers e).length < 2 ∨
        (Connections.fanoutOf rows transfers e).length > Connections.MAX_FANOUT →
      ∀ c ∈ Connections.detectConnections rows transfers,
        c.evidence ≠ .shared e) ∧
    (∀ c ∈ Connections.detectConnections rows transfers,
      c.evidence = .shared e →
        c.connection_type = "indirect" ∧
        c.address_id_1 ∈ Connections.fanoutOf rows transfers e ∧
        c.address_id_2 ∈ Connections.fanoutOf rows transfers e ∧
        c.address_id_1 < c.address_id_2) := by
  have hwf := Connections.counterpartyMap_wf
    (Connections.buildAddressMap rows) transfers
  have hnd := Connections.detectConnections_nodup rows transfers
  obtain ⟨hpairs, hcount, hrows⟩ :=
    Connections.directPass_inv (Connections.buildAddressMap rows) transfers
  refine ⟨?_, ?_, ?_⟩
  · intro ha hb hab h2 h10
    unfold Connections.fanoutOf at ha hb h2 h10
    cases hK : Connections.cmapGet (Connections.counterpartyMap
        (Connections.buildAddressMap rows) transfers) e with
    | none =>
      rw [hK] at ha
      simp at ha
    | some K =>
      rw [hK] at ha hb h2 h10
      simp only [Option.getD_some] at ha hb h2 h10
      obtain ⟨p, hp, hmin, hmax⟩ := Connections.pairsOf_covers K a b ha hb hab
      have hmem : Connections.indirectRow e p ∈
          Connections.detectConnections rows transfers := by
        unfold Connections.detectConnections
        exact Connections.indirectRow_mem_final _ _ e K p
          (Connections.cmapGet_mem _ _ _ hK) (by omega) hp
      have : (⟨min a b, max a b, "indirect", .shared e⟩ : Connections.Conn)
          = Connections.indirectRow e p := by
        unfold Connections.indirectRow
        rw [hmin, hmax]
      rw [this]
      exact List.count_eq_one_of_mem hnd hmem
  · intro hlen c hc hev
    unfold Connections.detectConnections at hc
    obtain ⟨ex, hex, hall⟩ := Connections.cmapFold_append
      (Connections.counterpartyMap (Connections.buildAddressMap rows) transfers)
      ((transfers.foldl (Connections.directStep
        (Connections.buildAddressMap rows)) ⟨[], []⟩).conns)
    rw [hex] at hc
    rcases List.mem_append.mp hc with hc' | hc'
    · obtain ⟨-, -, tt, -, h4⟩ := hrows c hc'
      rw [h4] at hev
      unfold Connections.evidenceOf at hev
      simp at hev
    · obtain ⟨entry, hentry, hg, p, hp, rfl⟩ := hall c hc'
      unfold Connections.indirectRow at hev
      simp only [Connections.Evidence.shared.injEq] at hev
      have hget : Connections.cmapGet (Connections.counterpartyMap
          (Connections.buildAddressMap rows) transfers) e = some entry.2 := by
        rw [← hev]
        exact Connections.cmapGet_unique _ _ _ hwf (by
          have : (entry.1, entry.2) = entry := rfl
          rw [this]
          exact hentry)
      unfold Connections.fanoutOf at hlen
      rw [hget] at hlen
      simp only [Option.getD_some] at hlen
      omega
  · intro c hc hev
    unfold Connections.detectConnections at hc
    obtain ⟨ex, hex, hall⟩ := Connections.cmapFold_append
      (Connections.counterpartyMap (Connections.buildAddressMap rows) transfers)
      ((transfers.foldl (Connections.directStep
        (Connections.buildAddressMap rows)) ⟨[], []⟩).conns)
    rw [hex] at hc
    rcases List.mem_append.mp hc with hc' | hc'
    · obtain ⟨-, -, tt, -, h4⟩ := hrows c hc'
      rw [h4] at hev
      unfold Connections.evidenceOf at hev
      simp at hev
    · obtain ⟨entry, hentry, hg, p, hp, rfl⟩ := hall c hc'
      unfold Connections.indirectRow at hev ⊢
      simp only [Connections.Evidence.shared.injEq] at hev
      have hget : Connections.cmapGet (Connections.counterpartyMap
          (Connections.buildAddressMap rows) transfers) e = some entry.2 := by
        rw [← hev]
        exact Connections.cmapGet_unique _ _ _ hwf (by
          have : (entry.1, entry.2) = entry := rfl
          rw [this]
          exact hentry)
      have hfan : Connections.fanoutOf rows transfers e = entry.2 := by
        unfold Connections.fanoutOf
        rw [hget]
        rfl
      have hKnd : entry.2.Nodup := hwf.2 entry hentry
      obtain ⟨hp1, hp2, hpne⟩ := Connections.pairsOf_mem entry.2 hKnd p hp
      refine ⟨rfl, ?_, ?_, min_lt_max.mpr hpne⟩
      · rw [hfan]
        rcases min_choice p.1 p.2 with hm | hm <;> rw [hm]
        · exact hp1
        · exact hp2
      · rw [hfan]
        rcases max_choice p.1 p.2 with hm | hm <;> rw [hm]
        · exact hp1
        · exact hp2

/-- Claim C4 witness: external "Xena" with fan-out exactly {1, 2} yields
exactly one indirect row for the pair. -/
theorem detect_indirect_fanout_witness :
    (Connections.detectConnections Fixtures.rowsFix
        Fixtures.transfersFix).count
      ⟨min 1 2, max 1 2, "indirect", .shared "Xena"⟩ = 1 :=
  (detect_indirect_fanout Fixtures.rowsFix Fixtures.transfersFix "Xena" 1 2).1
    (by decide) (by decide) (by decide) (by decide) (by decide)

namespace Clusters

/-- Helper: insertion keeps exactly the old elements plus the new one. -/
theorem insertByDesc_mem (x : ClusterData) (l : List ClusterData)
    (z : ClusterData) : z ∈ insertByDesc x l ↔ z = x ∨ z ∈ l := by
  induction l with
  | nil => simp [insertByDesc]
  | cons y ys ih =>
    unfold insertByDesc
    split
    · rw [List.mem_cons, ih]
      constructor
      · rintro (h | h | h)
        · exact Or.inr (by simp [h])
        · exact Or.inl h
        · exact Or.inr (List.mem_cons_of_mem _ h)
      · rintro (h | h)
        · exact Or.inr (Or.inl h)
        · rcases List.mem_cons.mp h with h' | h'
          · exact Or.inl h'
          · exact Or.inr (Or.inr h')
    · simp

/-- Helper: the sorted output has the same members. -/
theorem sortByDesc_mem (l : List ClusterData) (z : ClusterData) :
    z ∈ sortByDesc l ↔ z ∈ l := by
  induction l with
  | nil => simp [sortByDesc]
  | cons x xs ih =>
    unfold sortByDesc at ih ⊢
    rw [List.foldr_cons, insertByDesc_mem, ih, List.mem_cons]

/-- Helper: insertion preserves descending sortedness. -/
theorem insertByDesc_pairwise (x : ClusterData) (l : List ClusterData)
    (h : l.Pairwise (fun a b => b.memberIds.length ≤ a.memberIds.length)) :
    (insertByDesc x l).Pairwise
      (fun a b => b.memberIds.length ≤ a.memberIds.length) := by
  induction l with
  | nil => simp [insertByDesc]
  | cons y ys ih =>
    rw [List.pairwise_cons] at h
    unfold insertByDesc
    split
    · next hlt =>
      rw [List.pairwise_cons]
      refine ⟨?_, ih h.2⟩
      intro z hz
      rcases (insertByDesc_mem x ys z).mp hz with rfl | hz'
      · omega
      · exact h.1 z hz'
    · next hge =>
      rw [List.pairwise_cons]
      refine ⟨?_, List.pairwise_cons.mpr h⟩
      intro z hz
      rcases List.mem_cons.mp hz with rfl | hz'
      · omega
      · have := h.1 z hz'
        omega

/-- Helper: the output of the stable sort is descending in member
count. -/
theorem sortByDesc_sorted (l : List ClusterData) :
    (sortByDesc l).Pairwise
      (fun a b => b.memberIds.length ≤ a.memberIds.length) := by
  induction l with
  | nil => simp [sortByDesc]
  | cons x xs ih => exact insertByDesc_pairwise x _ ih

/-- Helper: lookup after `setEntry`. -/
theorem lookupD_setEntry (p : List (Nat × Nat)) (k v z d : Nat) :
    lookupD (setEntry p k v) z d = if z = k then v else lookupD p z d := by
  induction p with
  | nil =>
    by_cases hz : z = k
    · subst hz
      simp [setEntry, lookupD]
    · simp [setEntry, lookupD, hz, Ne.symm hz]
  | cons e rest ih =>
    unfold setEntry
    by_cases he : e.1 = k
    · rw [if_pos he]
      by_cases hz : z = k
      · subst hz
        unfold lookupD
        simp
      · rw [if_neg hz]
        unfold lookupD
        rw [List.find?_cons_of_neg _ (by simp [Ne.symm hz]),
          List.find?_cons_of_neg _ (by simp [he, Ne.symm hz])]
    · rw [if_neg he]
      by_cases hz : z = e.1
      · rw [if_neg (by rw [hz]; exact he)]
        unfold lookupD
        rw [List.find?_cons_of_pos _ (by simp [hz]),
          List.find?_cons_of_pos _ (by simp [hz])]
      · unfold lookupD
        rw [List.find?_cons_of_neg _ (by simp [Ne.symm hz]),
          List.find?_cons_of_neg _ (by simp [Ne.symm hz])]
        exact ih

end Clusters

namespace Clusters

/-- Helper: chasing parent pointers stays inside the equivalence class,
whatever the fuel — every pointer relates equivalent nodes. -/
theorem chase_rel (R : Nat → Nat → Prop) (hrefl : ∀ x, R x x)
    (htrans : ∀ {x y z}, R x y → R y z → R x z)
    (p : List (Nat × Nat)) (hinv : ∀ z, R z (lookupD p z z)) :
    ∀ (f x : Nat), R x (chase p f x) := by
  intro f
  induction f with
  | zero => intro x; exact hrefl x
  | succ f ih =>
    intro x
    unfold chase
    dsimp only
    split
    · exact hrefl x
    · exact htrans (hinv x) (ih (lookupD p x x))

/-- Helper: redirecting one pointer inside the class preserves the
pointer invariant. -/
theorem setEntry_inv (R : Nat → Nat → Prop) (p : List (Nat × Nat)) (k v : Nat)
    (hinv : ∀ z, R z (lookupD p z z)) (hkv : R k v) :
    ∀ z, R z (lookupD (setEntry p k v) z z) := by
  intro z
  rw [lookupD_setEntry]
  split
  · next hz => exact hz ▸ hkv
  · exact hinv z

/-- Helper: path compression preserves the pointer invariant. -/
theorem compressPath_inv (R : Nat → Nat → Prop)
    (hsymm : ∀ {x y}, R x y → R y x)
    (htrans : ∀ {x y z}, R x y → R y z → R x z) (root : Nat) :
    ∀ (f : Nat) (p : List (Nat × Nat)) (curr : Nat),
      (∀ z, R z (lookupD p z z)) → R curr root →
      ∀ z, R z (lookupD (compressPath root f p curr) z z) := by
  intro f
  induction f with
  | zero => intro p curr hinv _; exact hinv
  | succ f ih =>
    intro p curr hinv hcr
    unfold compressPath
    dsimp only
    split
    · exact hinv
    · exact ih (setEntry p curr root) (lookupD p curr curr)
        (setEntry_inv R p curr root hinv hcr)
        (htrans (hsymm (hinv curr)) hcr)

/-- Helper: `find` preserves the pointer invariant and returns a node
equivalent to its argument. -/
theorem find_inv (R : Nat → Nat → Prop) (hrefl : ∀ x, R x x)
    (hsymm : ∀ {x y}, R x y → R y x)
    (htrans : ∀ {x y z}, R x y → R y z → R x z)
    (uf : UnionFind) (x : Nat)
    (hinv : ∀ z, R z (lookupD uf.parent z z)) :
    (∀ z, R z (lookupD (uf.find x).1.parent z z)) ∧ R x (uf.find x).2 := by
  unfold UnionFind.find
  dsimp only
  exact ⟨compressPath_inv R hsymm htrans _ _ uf.parent x hinv
      (chase_rel R hrefl htrans uf.parent hinv _ x),
    chase_rel R hrefl htrans uf.parent hinv _ x⟩

/-- Helper: `union x y` preserves the pointer invariant when `x` and
`y` are equivalent. -/
theorem union_inv (R : Nat → Nat → Prop) (hrefl : ∀ x, R x x)
    (hsymm : ∀ {x y}, R x y → R y x)
    (htrans : ∀ {x y z}, R x y → R y z → R x z)
    (uf : UnionFind) (x y : Nat)
    (hinv : ∀ z, R z (lookupD uf.parent z z)) (hxy : R x y) :
    ∀ z, R z (lookupD (uf.union x y).parent z z) := by
  obtain ⟨hinv1, hrx⟩ := find_inv R hrefl hsymm htrans uf x hinv
  obtain ⟨hinv2, hry⟩ := find_inv R hrefl hsymm htrans (uf.find x).1 y hinv1
  have hrxy : R (uf.find x).2 ((uf.find x).1.find y).2 :=
    htrans (htrans (hsymm hrx) hxy) hry
  unfold UnionFind.union
  dsimp only
  split
  · exact hinv2
  · split
    · exact setEntry_inv R _ _ _ hinv2 hrxy
    · split
      · exact setEntry_inv R _ _ _ hinv2 (hsymm hrxy)
      · exact setEntry_inv R _ _ _ hinv2 (hsymm hrxy)

/-- Helper: looking up in a table extended with a fresh self-loop gives
the old value or the node itself. -/
theorem lookupD_append_single (p : List (Nat × Nat)) (x z : Nat) :
    lookupD (p ++ [(x, x)]) z z = lookupD p z z ∨
      lookupD (p ++ [(x, x)]) z z = z := by
  unfold lookupD
  rw [List.find?_append]
  cases hf : p.find? (fun q => decide (q.1 = z)) with
  | some q =>
    left
    rfl
  | none =>
    right
    by_cases hz : x = z
    · simp [List.find?, hz]
    · simp [List.find?, hz]

/-- Helper: `add` preserves the pointer invariant. -/
theorem add_inv (R : Nat → Nat → Prop) (hrefl : ∀ x, R x x)
    (uf : UnionFind) (x : Nat)
    (hinv : ∀ z, R z (lookupD uf.parent z z)) :
    ∀ z, R z (lookupD (uf.add x).parent z z) := by
  unfold UnionFind.add
  split
  · exact hinv
  · intro z
    dsimp only
    rcases lookupD_append_single uf.parent x z with h | h
    · rw [h]
      exact hinv z
    · rw [h]
      exact hrefl z

end Clusters

namespace Clusters

/-- Helper: the Union-Find built over the connection list satisfies the
pointer invariant for direct-connectivity. -/
theorem buildUF_inv (connections : List Connections.Conn)
    (l : List Connections.Conn) (hl : ∀ c ∈ l, c ∈ connections)
    (uf : UnionFind)
    (hinv : ∀ z, DirectReach connections z (lookupD uf.parent z z)) :
    ∀ z, DirectReach connections z
      (lookupD (l.foldl (fun (uf : UnionFind) c =>
        if c.connection_type = "direct" then
          ((uf.add c.address_id_1).add c.address_id_2).union
            c.address_id_1 c.address_id_2
        else (uf.add c.address_id_1).add c.address_id_2) uf).parent z z) := by
  induction l generalizing uf with
  | nil => exact hinv
  | cons c rest ih =>
    rw [List.foldl_cons]
    have hadds : ∀ z, DirectReach connections z
        (lookupD ((uf.add c.address_id_1).add c.address_id_2).parent z z) :=
      add_inv _ (Relation.EqvGen.refl) _ _
        (add_inv _ (Relation.EqvGen.refl) _ _ hinv)
    have hrest : ∀ c ∈ rest, c ∈ connections :=
      fun c' hc' => hl c' (List.mem_cons_of_mem _ hc')
    by_cases hd : c.connection_type = "direct"
    · rw [if_pos hd]
      refine ih hrest _ ?_
      refine union_inv _ (Relation.EqvGen.refl)
        (fun h => Relation.EqvGen.symm _ _ h)
        (fun h1 h2 => Relation.EqvGen.trans _ _ _ h1 h2) _ _ _ hadds ?_
      exact Relation.EqvGen.rel _ _
        ⟨c, hl c (List.mem_cons_self _ _), hd, Or.inl ⟨rfl, rfl⟩⟩
    · rw [if_neg hd]
      exact ih hrest _ hadds

/-- Helper: adding a node to its root's bucket preserves the bucket
invariant. -/
theorem groupsAdd_rel (connections : List Connections.Conn)
    (gs : List (Nat × List Nat)) (root x : Nat)
    (hgs : ∀ g ∈ gs, ∀ y ∈ g.2, DirectReach connections y g.1)
    (hx : DirectReach connections x root) :
    ∀ g ∈ groupsAdd gs root x, ∀ y ∈ g.2, DirectReach connections y g.1 := by
  induction gs with
  | nil =>
    intro g hg y hy
    unfold groupsAdd at hg
    rw [List.mem_singleton] at hg
    subst hg
    rw [List.mem_singleton] at hy
    subst hy
    exact hx
  | cons e rest ih =>
    intro g hg y hy
    unfold groupsAdd at hg
    by_cases he : e.1 = root
    · rw [if_pos he] at hg
      rcases List.mem_cons.mp hg with rfl | hg'
      · rcases List.mem_append.mp hy with hy' | hy'
        · exact hgs e (List.mem_cons_self _ _) y hy'
        · rw [List.mem_singleton] at hy'
          subst hy'
          exact he ▸ hx
      · exact hgs g (List.mem_cons_of_mem _ hg') y hy
    · rw [if_neg he] at hg
      rcases List.mem_cons.mp hg with rfl | hg'
      · exact hgs e (List.mem_cons_self _ _) y hy
      · exact ih (fun g' hg' => hgs g' (List.mem_cons_of_mem _ hg')) g hg' y hy

/-- Helper: every member of every group is direct-connected to its
group's root. -/
theorem groupsFold_rel (connections : List Connections.Conn) :
    ∀ (keys : List Nat) (acc : UnionFind × List (Nat × List Nat)),
      (∀ z, DirectReach connections z (lookupD acc.1.parent z z)) →
      (∀ g ∈ acc.2, ∀ y ∈ g.2, DirectReach connections y g.1) →
      ∀ g ∈ (keys.foldl (fun acc x =>
          ((acc.1.find x).1, groupsAdd acc.2 (acc.1.find x).2 x)) acc).2,
        ∀ y ∈ g.2, DirectReach connections y g.1 := by
  intro keys
  induction keys with
  | nil => intro acc _ hacc; exact hacc
  | cons x keys ih =>
    intro acc hinv hacc
    rw [List.foldl_cons]
    obtain ⟨hinv', hrx⟩ := find_inv (DirectReach connections)
      (Relation.EqvGen.refl) (fun h => Relation.EqvGen.symm _ _ h)
      (fun h1 h2 => Relation.EqvGen.trans _ _ _ h1 h2) acc.1 x hinv
    exact ih _ hinv' (groupsAdd_rel connections acc.2 _ x hacc hrx)

/-- Helper: every member of a `groups()` bucket is direct-connected to
the bucket's root. -/
theorem groups_rel (connections : List Connections.Conn) (uf : UnionFind)
    (hinv : ∀ z, DirectReach connections z (lookupD uf.parent z z)) :
    ∀ g ∈ uf.groups.2, ∀ y ∈ g.2, DirectReach connections y g.1 := by
  unfold UnionFind.groups
  dsimp only
  exact groupsFold_rel connections uf.keys (uf, []) hinv
    (by intro g hg y hy; simp at hg)

/-- Helper: every cluster the building fold appends has at least two
members, carries exactly the connections inside its member set, and
takes its member list from one of the groups. -/
theorem clusterFold_mem (connections : List Connections.Conn)
    (grps : List (Nat × List Nat)) (acc : Nat × List ClusterData) :
    ∀ cl ∈ (grps.foldl (fun (acc : Nat × List ClusterData) g =>
        if g.2.length < 2 then acc
        else (acc.1 + 1, acc.2 ++ [⟨acc.1, g.2, connections.filter
          (fun c => g.2.contains c.address_id_1 &&
            g.2.contains c.address_id_2)⟩])) acc).2,
      cl ∈ acc.2 ∨ (2 ≤ cl.memberIds.length ∧
        cl.connections = connections.filter
          (fun c => cl.memberIds.contains c.address_id_1 &&
            cl.memberIds.contains c.address_id_2) ∧
        ∃ g ∈ grps, cl.memberIds = g.2) := by
  induction grps generalizing acc with
  | nil => intro cl hcl; exact Or.inl hcl
  | cons g rest ih =>
    intro cl hcl
    rw [List.foldl_cons] at hcl
    by_cases hg : g.2.length < 2
    · rw [if_pos hg] at hcl
      rcases ih acc cl hcl with h | ⟨h1, h2, g', hg', h3⟩
      · exact Or.inl h
      · exact Or.inr ⟨h1, h2, g', List.mem_cons_of_mem _ hg', h3⟩
    · rw [if_neg hg] at hcl
      rcases ih _ cl hcl with h | ⟨h1, h2, g', hg', h3⟩
      · rcases List.mem_append.mp h with h' | h'
        · exact Or.inl h'
        · rw [List.mem_singleton] at h'
          subst h'
          refine Or.inr ⟨?_, rfl, g, List.mem_cons_self _ _, rfl⟩
          show 2 ≤ g.2.length
          omega
      · exact Or.inr ⟨h1, h2, g', List.mem_cons_of_mem _ hg', h3⟩

end Clusters

/-- Claim C6. The cluster builder unions only nodes joined by a direct
connection, so any two members of one output cluster are connected
through direct connections alone — two addresses joined only by
indirect connections are never placed in the same cluster; every group
of size 1 is discarded (each output cluster has at least 2 members);
each surviving cluster carries exactly the connection records (of
either kind) whose both endpoints are members; and the output is sorted
by descending member count. -/
theorem compute_clusters_correct (connections : List Connections.Conn) :
    (∀ cl ∈ Clusters.computeClusters connections,
      2 ≤ cl.memberIds.length ∧
      (∀ c, c ∈ cl.connections ↔ c ∈ connections ∧
        c.address_id_1 ∈ cl.memberIds ∧ c.address_id_2 ∈ cl.memberIds) ∧
      (∀ x ∈ cl.memberIds, ∀ y ∈ cl.memberIds,
        Clusters.DirectReach connections x y)) ∧
    (Clusters.computeClusters connections).Pairwise
      (fun a b => b.memberIds.length ≤ a.memberIds.length) := by
  constructor
  · intro cl hcl
    unfold Clusters.computeClusters at hcl
    by_cases hconn : connections.length = 0
    · rw [if_pos hconn] at hcl
      simp at hcl
    · rw [if_neg hconn] at hcl
      dsimp only at hcl
      rw [Clusters.sortByDesc_mem] at hcl
      rcases Clusters.clusterFold_mem connections _ (1, []) cl hcl with
        h | ⟨h1, h2, g, hg, h3⟩
      · simp at h
      · refine ⟨h1, ?_, ?_⟩
        · intro c
          rw [h2, List.mem_filter]
          constructor
          · rintro ⟨hc1, hc2⟩
            rw [Bool.and_eq_true] at hc2
            exact ⟨hc1, List.mem_of_elem_eq_true hc2.1,
              List.mem_of_elem_eq_true hc2.2⟩
          · rintro ⟨hc1, hc2, hc3⟩
            refine ⟨hc1, ?_⟩
            rw [Bool.and_eq_true]
            exact ⟨List.elem_eq_true_of_mem hc2, List.elem_eq_true_of_mem hc3⟩
        · intro x hx y hy
          have hufinv := Clusters.buildUF_inv connections connections
            (fun c h => h) ⟨[], []⟩
            (fun z => Relation.EqvGen.refl z)
          have hrel := Clusters.groups_rel connections _ hufinv g hg
          rw [h3] at hx hy
          exact Relation.EqvGen.trans _ _ _ (hrel x hx)
            (Relation.EqvGen.symm _ _ (hrel y hy))
  · by_cases hconn : connections.length = 0
    · unfold Clusters.computeClusters
      rw [if_pos hconn]
      simp
    · unfold Clusters.computeClusters
      rw [if_neg hconn]
      dsimp only
      exact Clusters.sortByDesc_sorted _

/-- Claim C6 witness: on `connsFix`, the computed cluster {1, 2} has two
members, carries both the direct and the indirect row, and its members
are direct-connected; the indirect-only pair (3, 4) forms no cluster. -/
theorem compute_clusters_correct_witness :
    2 ≤ Fixtures.clFix.memberIds.length ∧
    Clusters.DirectReach Fixtures.connsFix 1 2 ∧
    (⟨1, 2, "indirect", .shared "Xena"⟩ : Connections.Conn)
      ∈ Fixtures.clFix.connections := by
  have h := (compute_clusters_correct Fixtures.connsFix).1 Fixtures.clFix
    (by decide)
  exact ⟨h.1, h.2.2 1 (by decide) 2 (by decide),
    (h.2.1 _).mpr ⟨by decide, by decide, by decide⟩⟩
